import Mathlib

/-!
Verification of the post-processing / training-target pipelines of
`keras_ocr/detection.py` (scene-text detector).

The Python source is shallowly embedded:
* numpy float arrays become functions `ℕ → ℕ → ℚ` (exact rational
  arithmetic stands in for floating point); 2-D arrays carry their
  dimensions alongside;
* the external OpenCV geometric collaborators that the source calls
  (`cv2.findContours`, `cv2.minAreaRect`/`cv2.boxPoints`,
  `cv2.getPerspectiveTransform`/`cv2.warpPerspective`) are function
  parameters, exactly as the neural network `predict` is an external
  collaborator; OpenCV primitives with simple documented semantics
  (`cv2.threshold`, `cv2.connectedComponentsWithStats`, `cv2.dilate`)
  are embedded concretely;
* Python exceptions (assert failures, IndexError from `contours[0]`,
  cv2.error from `minAreaRect` on an empty contour) become `none` of an
  `Option` result;
* in-place numpy mutation is modelled separately by an explicit store
  (list of arrays) for the frame-effect theorem.
-/

/-- A 2-D float array: value at row `i`, column `j` (0 outside bounds). -/
abbrev Grid : Type := ℕ → ℕ → ℚ

/-! ### Preprocessor / Postprocessor (`compute_input`, `invert_input`) -/

/-- Per-channel mean, `np.array([0.485, 0.456, 0.406])` in the source. -/
def channelMean : Fin 3 → ℚ
  | 0 => 485/1000
  | 1 => 456/1000
  | 2 => 406/1000

/-- Per-channel std, `np.array([0.229, 0.224, 0.225])` (called `variance`). -/
def channelVariance : Fin 3 → ℚ
  | 0 => 229/1000
  | 1 => 224/1000
  | 2 => 225/1000

/-- One channel value through `compute_input`:
`image -= mean * 255; image /= variance * 255`. -/
def compute_input (c : Fin 3) (v : ℚ) : ℚ :=
  (v - channelMean c * 255) / (channelVariance c * 255)

/-- One channel value through `invert_input`:
`X *= variance * 255; X += mean * 255; return X.clip(0, 255).astype('uint8')`.
`np.clip(x, 0, 255)` is `min 255 (max 0 x)`; the `uint8` cast truncates
toward zero, which on the clipped nonnegative value is the floor. -/
def invert_input (c : Fin 3) (x : ℚ) : ℤ :=
  ⌊min 255 (max 0 (x * (channelVariance c * 255) + channelMean c * 255))⌋

/-- An RGB image as a function of row, column and channel. -/
abbrev Image3 : Type := ℕ → ℕ → Fin 3 → ℚ

/-- `compute_input` applied to a whole image (the numpy ops broadcast
per channel over all pixels). -/
def compute_input_image (img : Image3) : Image3 :=
  fun i j c => compute_input c (img i j c)

/-- `invert_input` applied to a whole image. -/
def invert_input_image (img : Image3) : ℕ → ℕ → Fin 3 → ℤ :=
  fun i j c => invert_input c (img i j c)

/-! ### Binarization (`cv2.threshold` with `cv2.THRESH_BINARY`)

OpenCV `THRESH_BINARY` semantics: `dst(x,y) = maxval if src(x,y) > thresh
else 0`, with the comparison strict.  `getBoxes` calls it with
`maxval=1`. -/

/-- `cv2.threshold(src, thresh, maxval=1, type=cv2.THRESH_BINARY)`. -/
def cvThreshold (thresh : ℚ) (g : Grid) : Grid :=
  fun i j => if thresh < g i j then 1 else 0

/-! ### Gaussian kernel (`get_gaussian_heatmap`) -/

/-- Entry `i` of `np.abs(np.linspace(-size / 2, size / 2, num=size))`:
the linspace grid runs from `-size/2` to `size/2` inclusive with spacing
`size/(size-1)`.  (For `size = 1` numpy returns `[-size/2]`; the formula
below agrees because the `i * _` term vanishes at `i = 0`.) -/
noncomputable def linspaceAbs (size : ℕ) (i : ℕ) : ℝ :=
  |(-(size : ℝ) / 2) + (i : ℝ) * ((size : ℝ) / ((size : ℝ) - 1))|

/-- Value of `get_gaussian_heatmap(size, distanceRatio)` at row `i`,
column `j`, following the source line by line:
`g = sqrt(x**2 + y**2); g *= distanceRatio / (size / 2);
g = exp(-(1/2) * g**2); g *= 255; return g.clip(0, 255).astype('uint8')`.
The `uint8` cast truncates toward zero; on the clipped nonnegative value
that is the floor. -/
noncomputable def get_gaussian_heatmap (size : ℕ) (distanceRatio : ℝ) (i j : ℕ) : ℤ :=
  let x := linspaceAbs size j
  let y := linspaceAbs size i
  let g1 := Real.sqrt (x ^ 2 + y ^ 2)
  let g2 := g1 * (distanceRatio / ((size : ℝ) / 2))
  let g3 := Real.exp (-(1 / 2) * g2 ^ 2)
  ⌊min 255 (max 0 (g3 * 255))⌋

/-- The kernel value exactly as claim C3 words it (for comparison with
the implementation): the pixel grid is a size×size grid of integer
coordinates centered at the origin (instantiated for odd `size`, where
the center index is `(size-1)/2`), the scaled Euclidean distance is
`d * distanceRatio / (size/2)`, and the intensity is
`round(255 * exp(-0.5 * d^2))` clipped to `[0, 255]`. -/
noncomputable def gaussianHeatmapClaim (size : ℕ) (distanceRatio : ℝ) (i j : ℕ) : ℤ :=
  let ci : ℤ := (i : ℤ) - ((size : ℤ) - 1) / 2
  let cj : ℤ := (j : ℤ) - ((size : ℤ) - 1) / 2
  let d := Real.sqrt ((ci : ℝ) ^ 2 + (cj : ℝ) ^ 2) * (distanceRatio / ((size : ℝ) / 2))
  min 255 (max 0 (round (255 * Real.exp (-(1 / 2) * d ^ 2))))

/-! ### Target synthesis (`compute_maps`)

The perspective warp `cv2.warpPerspective(heatmap,
cv2.getPerspectiveTransform(src, dst), dsize)` is an external OpenCV
collaborator; it is passed in as a function `WarpFn` of the source
corners, destination quadrilateral, output size and kernel, returning
the warped image as a grid. -/

/-- One per-character annotation entry `(x1, y1, x2, y2, x3, y3, x4, y4, c)`
of a line. -/
structure CharBox where
  x1 : ℚ
  y1 : ℚ
  x2 : ℚ
  y2 : ℚ
  x3 : ℚ
  y3 : ℚ
  x4 : ℚ
  y4 : ℚ
  c : Char
deriving DecidableEq

/-- A line is an ordered list of character boxes. -/
abbrev TextLine : Type := List CharBox

/-- A kernel image (`heatmap` argument of `compute_maps`): a rectangular
array of intensities, row-major. -/
abbrev KernelImg : Type := List (List ℚ)

/-- Number of rows, `heatmap.shape[0]`. -/
def kernelRows (k : KernelImg) : ℕ := k.length

/-- Number of columns, `heatmap.shape[1]`. -/
def kernelCols (k : KernelImg) : ℕ := (k.headI).length

/-- The external warp collaborator: takes the four source corners, the
destination quadrilateral, the output size `dsize = (width, height)` and
the kernel, and produces the warped image (zero wherever the inverse
homography samples outside the kernel). -/
abbrev WarpFn : Type := List (ℚ × ℚ) → List (ℚ × ℚ) → ℕ × ℕ → KernelImg → Grid

/-- State of the inner loop of `compute_maps`: the text map, the link map
and `previous_link_points`. -/
abbrev SynthState : Type := Grid × Grid × Option ((ℚ × ℚ) × (ℚ × ℚ))

/-- Body of the inner loop of `compute_maps`, one `CharBox` at a time,
following the source:
if `c == ' '` reset `previous_link_points` and continue; otherwise
compute the quad center, the two (quartered) link anchor points and the
halved character corners, accumulate the warped kernel into the link map
(when a previous quad exists) and into the text map, and remember the
link points. -/
def synthStep (warp : WarpFn) (src : List (ℚ × ℚ)) (dsize : ℕ × ℕ)
    (heatmap : KernelImg) (st : SynthState) (e : CharBox) : SynthState :=
  if e.c = ' ' then (st.1, st.2.1, none)
  else
    let yc := (e.y4 + e.y1 + e.y3 + e.y2) / 4
    let xc := (e.x1 + e.x2 + e.x3 + e.x4) / 4
    let cur0 : ℚ × ℚ := ((xc + (e.x1 + e.x2) / 2) / 2 / 2, (yc + (e.y1 + e.y2) / 2) / 2 / 2)
    let cur1 : ℚ × ℚ := ((xc + (e.x3 + e.x4) / 2) / 2 / 2, (yc + (e.y3 + e.y4) / 2) / 2 / 2)
    let charPts : List (ℚ × ℚ) :=
      [(e.x1 / 2, e.y1 / 2), (e.x2 / 2, e.y2 / 2), (e.x3 / 2, e.y3 / 2), (e.x4 / 2, e.y4 / 2)]
    let lm : Grid :=
      match st.2.2 with
      | some prev =>
          fun i j => st.2.1 i j + warp src [prev.1, cur0, cur1, prev.2] dsize heatmap i j
      | none => st.2.1
    let tm : Grid := fun i j => st.1 i j + warp src charPts dsize heatmap i j
    (tm, lm, some (cur0, cur1))

/-- One line of the outer loop of `compute_maps`: run the inner loop on
the line starting with `previous_link_points = None`, keeping the
accumulated maps. -/
def lineFold (warp : WarpFn) (src : List (ℚ × ℚ)) (dsize : ℕ × ℕ)
    (heatmap : KernelImg) (tl : Grid × Grid) (line : List CharBox) :
    Grid × Grid :=
  let st := line.foldl (synthStep warp src dsize heatmap) (tl.1, tl.2, none)
  (st.1, st.2.1)

/-- `compute_maps(heatmap, image_height, image_width, lines)`.  The two
leading `assert`s on evenness become `none` (an `AssertionError` is
fatal to the call).  The result stacks the text and link channels, clips
to `[0, 255]` and divides by 255. -/
def compute_maps (warp : WarpFn) (heatmap : KernelImg)
    (image_height image_width : ℕ) (lines : List TextLine) :
    Option (ℕ → ℕ → Fin 2 → ℚ) :=
  if image_height % 2 ≠ 0 then none
  else if image_width % 2 ≠ 0 then none
  else
    let dsize : ℕ × ℕ := (image_width / 2, image_height / 2)
    let src : List (ℚ × ℚ) :=
      [(0, 0), ((kernelCols heatmap : ℚ), 0),
       ((kernelCols heatmap : ℚ), (kernelRows heatmap : ℚ)),
       (0, (kernelRows heatmap : ℚ))]
    let final : Grid × Grid :=
      lines.foldl (lineFold warp src dsize heatmap) (fun _ _ => 0, fun _ _ => 0)
    some (fun i j ch =>
      min 255 (max 0 (if ch = 0 then final.1 i j else final.2 i j)) / 255)

/-- Boolean agreement of two `CharBox`es on all eight coordinates and on
whether the label is the space sentinel. -/
def charBoxAgree (e f : CharBox) : Bool :=
  e.x1 = f.x1 ∧ e.y1 = f.y1 ∧ e.x2 = f.x2 ∧ e.y2 = f.y2 ∧
  e.x3 = f.x3 ∧ e.y3 = f.y3 ∧ e.x4 = f.x4 ∧ e.y4 = f.y4 ∧
  ((e.c = ' ') ↔ (f.c = ' '))

/-- Agreement of two line lists: same shape, entries agreeing pointwise. -/
def linesAgree : List TextLine → List TextLine → Bool
  | [], [] => true
  | l₁ :: r₁, l₂ :: r₂ =>
      (l₁.length = l₂.length ∧ (l₁.zip l₂).all fun p => charBoxAgree p.1 p.2) ∧
      linesAgree r₁ r₂
  | _, _ => false

/-! ### Box extraction (`getBoxes`)

`cv2.connectedComponentsWithStats(img, connectivity=4)` is embedded
concretely: 4-connected components of the nonzero pixels, each component
identified by the smallest linear (row-major) index of its pixels,
computed by iterated label-minimization (a standard fixpoint that
stabilizes within `h*w` sweeps).  Components are listed in row-major
order of first appearance; the claims proved below do not depend on the
numbering order.  The stats `CC_STAT_LEFT/TOP/WIDTH/HEIGHT/AREA` are
derived from the pixel sets. -/

/-- A heatmap pair `y_pred_cur`: dimensions plus the two channels
`y_pred_cur[..., 0]` (text) and `y_pred_cur[..., 1]` (link). -/
structure HeatPair where
  h : ℕ
  w : ℕ
  text : Grid
  link : Grid

/-- Read a label grid entry (0 outside bounds). -/
def lget (g : List (List ℕ)) (i j : ℕ) : ℕ := (g.getD i []).getD j 0

/-- Initial labels: each foreground pixel gets its row-major linear index
plus one; background pixels get 0. -/
def initLabels (h w : ℕ) (fg : ℕ → ℕ → Bool) : List (List ℕ) :=
  (List.range h).map fun i => (List.range w).map fun j =>
    if fg i j then i * w + j + 1 else 0

/-- One label-minimization sweep: every foreground pixel takes the
minimum of its own label and the labels of its 4-neighbors that are
foreground.  (At the borders the `ℕ`-truncated index `i - 1 = 0` reads
the pixel itself, which is harmless for a minimum; out-of-bounds reads
give 0 and are filtered out as background.) -/
def relabelStep (h w : ℕ) (g : List (List ℕ)) : List (List ℕ) :=
  (List.range h).map fun i => (List.range w).map fun j =>
    let v := lget g i j
    if v = 0 then 0
    else
      (([lget g (i - 1) j, lget g (i + 1) j,
         lget g i (j - 1), lget g i (j + 1)].filter (· ≠ 0))).foldl min v

/-- Connected-component labels of the foreground mask: `h*w` sweeps
reach the fixpoint where every pixel holds the minimal linear index of
its 4-connected component. -/
def labelGrid (h w : ℕ) (fg : ℕ → ℕ → Bool) : List (List ℕ) :=
  (relabelStep h w)^[h * w] (initLabels h w fg)

/-- The distinct nonzero labels in row-major order of first appearance
(the loop `for component_id in range(1, n_components)` runs over these). -/
def componentLabels (h w : ℕ) (g : List (List ℕ)) : List ℕ :=
  ((List.range h).flatMap fun i => (List.range w).map fun j => lget g i j).foldl
    (fun acc v => if v ≠ 0 ∧ v ∉ acc then acc ++ [v] else acc) []

/-- A connected component: its pixels as row-major `(row, col)` pairs. -/
structure Component where
  pixels : List (ℕ × ℕ)
deriving DecidableEq

/-- The component of label `v`. -/
def componentOf (h w : ℕ) (g : List (List ℕ)) (v : ℕ) : Component :=
  ⟨(List.range h).flatMap fun i => (List.range w).filterMap fun j =>
    if lget g i j = v then some (i, j) else none⟩

/-- All components, in label order. -/
def componentsOf (h w : ℕ) (g : List (List ℕ)) : List Component :=
  (componentLabels h w g).map (componentOf h w g)

/-- `stats[component_id, cv2.CC_STAT_AREA]`: the pixel count. -/
def Component.area (c : Component) : ℕ := c.pixels.length

/-- `stats[component_id, cv2.CC_STAT_LEFT]`: minimal column. -/
def Component.left (c : Component) : ℕ :=
  match c.pixels with
  | [] => 0
  | p :: ps => ps.foldl (fun a q => min a q.2) p.2

/-- `stats[component_id, cv2.CC_STAT_TOP]`: minimal row. -/
def Component.top (c : Component) : ℕ :=
  match c.pixels with
  | [] => 0
  | p :: ps => ps.foldl (fun a q => min a q.1) p.1

/-- Maximal column of the component. -/
def Component.right (c : Component) : ℕ :=
  match c.pixels with
  | [] => 0
  | p :: ps => ps.foldl (fun a q => max a q.2) p.2

/-- Maximal row of the component. -/
def Component.bottom (c : Component) : ℕ :=
  match c.pixels with
  | [] => 0
  | p :: ps => ps.foldl (fun a q => max a q.1) p.1

/-- `stats[component_id, cv2.CC_STAT_WIDTH]`. -/
def Component.width (c : Component) : ℕ := c.right - c.left + 1

/-- `stats[component_id, cv2.CC_STAT_HEIGHT]`. -/
def Component.height (c : Component) : ℕ := c.bottom - c.top + 1

/-- `np.max(textmap[labels == component_id])` (components produced by the
labeling are nonempty; the `[]` case is unreachable). -/
def compMax (textmap : Grid) (c : Component) : ℚ :=
  match c.pixels with
  | [] => 0
  | p :: ps => ps.foldl (fun a q => max a (textmap q.1 q.2)) (textmap p.1 p.2)

/-- `segmap = np.zeros_like(textmap); segmap[labels == component_id] = 255`. -/
def segmapInit (comp : Component) : Grid :=
  fun i j => if (i, j) ∈ comp.pixels then 255 else 0

/-- `segmap[np.logical_and(link_score, text_score)] = 0`: zero out every
pixel where both binary masks are nonzero (this runs after the 255
assignment, so it overrides it). -/
def segmapCarve (text_score link_score : Grid) (seg : Grid) : Grid :=
  fun i j => if text_score i j ≠ 0 ∧ link_score i j ≠ 0 then 0 else seg i j

/-- `int(np.sqrt(size * min(w, h) / (w * h)) * 2)` computed exactly:
with `S = size * min(w, h)` and `B = w * h`, the value is
`⌊2·√(S/B)⌋ = ⌊√(4SB)/B⌋ = ⌊⌊√(4SB)⌋/B⌋ = Nat.sqrt (4*S*B) / B`
(using `⌊x/n⌋ = ⌊⌊x⌋/n⌋` for natural `n`). -/
def niterOf (comp : Component) : ℕ :=
  Nat.sqrt (4 * (comp.area * min comp.width comp.height) *
    (comp.width * comp.height)) / (comp.width * comp.height)

/-- One output pixel of `cv2.dilate` applied to the slice
`segmap[sy:ey, sx:ex]` with a `k × k` `MORPH_RECT` structuring element
(default anchor = kernel center `k / 2`).  The maximum ranges over the
window pixels that fall inside the slice; `cv2.dilate`'s constant border
does not contribute, and since all values are nonnegative a base of 0 is
equivalent. -/
def dilateSliceVal (seg : Grid) (sy ey sx ex k : ℕ) (i j : ℕ) : ℚ :=
  let a := k / 2
  ((List.range k).flatMap fun di => (List.range k).filterMap fun dj =>
    if a ≤ i + di ∧ a ≤ j + dj then
      let r := i + di - a
      let cc := j + dj - a
      if sy ≤ r ∧ r < ey ∧ sx ≤ cc ∧ cc < ex then some (seg r cc) else none
    else none).foldl max 0

/-- The segmentation map of a component after carving and dilation:
`sx, sy = max(x - niter, 0), max(y - niter, 0)`;
`ex, ey = min(x + w + niter + 1, img_w), min(y + h + niter + 1, img_h)`;
`segmap[sy:ey, sx:ex] = cv2.dilate(segmap[sy:ey, sx:ex], rect(1+niter))`
(ℕ subtraction already truncates at 0). -/
def dilatedSegOf (imgH imgW : ℕ) (text_score link_score : Grid)
    (comp : Component) : Grid :=
  let seg := segmapCarve text_score link_score (segmapInit comp)
  let niter := niterOf comp
  let sx := comp.left - niter
  let sy := comp.top - niter
  let ex := min (comp.left + comp.width + niter + 1) imgW
  let ey := min (comp.top + comp.height + niter + 1) imgH
  fun i j =>
    if sy ≤ i ∧ i < ey ∧ sx ≤ j ∧ j < ex then
      dilateSliceVal seg sy ey sx ex (1 + niter) i j
    else seg i j

/-- A polygon box: 4 ordered points `(x, y)`. -/
structure PBox where
  p0 : ℚ × ℚ
  p1 : ℚ × ℚ
  p2 : ℚ × ℚ
  p3 : ℚ × ℚ
deriving DecidableEq

/-- Coordinate sum `x + y` of a point (`box.sum(axis=1)` entries). -/
def sumXY (p : ℚ × ℚ) : ℚ := p.1 + p.2

/-- Shoelace sum of the 4-point polygon in image coordinates (y down);
nonnegative exactly when the traversal is clockwise on screen (zero for
degenerate polygons). -/
def shoelace (b : PBox) : ℚ :=
  (b.p0.1 * b.p1.2 - b.p1.1 * b.p0.2) + (b.p1.1 * b.p2.2 - b.p2.1 * b.p1.2) +
  (b.p2.1 * b.p3.2 - b.p3.1 * b.p2.2) + (b.p3.1 * b.p0.2 - b.p0.1 * b.p3.2)

/-- `t * box` (pointwise scaling; the source returns `2 * box`). -/
def scaleBox (t : ℚ) (b : PBox) : PBox :=
  ⟨(t * b.p0.1, t * b.p0.2), (t * b.p1.1, t * b.p1.2),
   (t * b.p2.1, t * b.p2.2), (t * b.p3.1, t * b.p3.2)⟩

/-- Squared Euclidean distance (`np.linalg.norm(p - q) ** 2`). -/
def normSq (p q : ℚ × ℚ) : ℚ := (p.1 - q.1) ^ 2 + (p.2 - q.2) ^ 2

/-- Decides `√x ≤ c + d·√y` for nonnegative rationals `x, y, c, d` by
squaring twice: with `t = x - c² - d²·y` the inequality is equivalent to
`t ≤ 2cd·√y`, i.e. to `t ≤ 0 ∨ t² ≤ 4c²d²y`. -/
def sqrtLePlus (x c d y : ℚ) : Bool :=
  let t := x - c ^ 2 - d ^ 2 * y
  t ≤ 0 ∨ t ^ 2 ≤ 4 * c ^ 2 * d ^ 2 * y

/-- Decides `√x < c + d·√y` for nonnegative rationals by the same
squaring: with `t = x - c² - d²·y` it is `t < 2cd·√y`, i.e.
`t < 0 ∨ t² < 4c²d²y`. -/
def sqrtLtPlus (x c d y : ℚ) : Bool :=
  let t := x - c ^ 2 - d ^ 2 * y
  t < 0 ∨ t ^ 2 < 4 * c ^ 2 * d ^ 2 * y

/-- The near-square test of the source, decided exactly on the squared
side lengths `a = ‖box0 - box1‖²`, `b = ‖box1 - box2‖²`:
`w, h = √a, √b; box_ratio = max(w,h) / (min(w,h) + 1e-5);
abs(1 - box_ratio) <= 0.1`.  Since the ratio is nonnegative this is
`0.9·(min + 1e-5) ≤ max ∧ max ≤ 1.1·(min + 1e-5)`, with
`max = √(max a b)`, `min = √(min a b)` (√ is monotone), decided by the
squaring helpers. -/
def diamondTest (a b : ℚ) : Bool :=
  let A := max a b
  let B := min a b
  let e : ℚ := 1 / 100000
  sqrtLePlus A (11 / 10 * e) (11 / 10) B ∧ ¬ sqrtLtPlus A (9 / 10 * e) (9 / 10) B

/-- The axis-aligned fallback box of the near-square branch:
`l, r = contour[:, 0, 0].min/max(); t, b = contour[:, 0, 1].min/max();
box = [[l, t], [r, t], [r, b], [l, b]]` (contour points are `(x, y)`;
the `[]` case is unreachable, guarded by the emptiness check before). -/
def diamondBox (ct : List (ℕ × ℕ)) : PBox :=
  match ct with
  | [] => ⟨(0, 0), (0, 0), (0, 0), (0, 0)⟩
  | p :: ps =>
      let l : ℚ := (ps.foldl (fun a q => min a q.1) p.1 : ℕ)
      let r : ℚ := (ps.foldl (fun a q => max a q.1) p.1 : ℕ)
      let t : ℚ := (ps.foldl (fun a q => min a q.2) p.2 : ℕ)
      let b : ℚ := (ps.foldl (fun a q => max a q.2) p.2 : ℕ)
      ⟨(l, t), (r, t), (r, b), (l, b)⟩

/-- `np.roll(box, 4 - box.sum(axis=1).argmin(), 0)`: rotate the point
list so that index 0 is the first point of minimal coordinate sum
(`np.argmin` returns the first minimizer; rolling by `4 - m` sends index
`m` to index 0 preserving cyclic order). -/
def rollBox (b : PBox) : PBox :=
  let s0 := sumXY b.p0
  let s1 := sumXY b.p1
  let s2 := sumXY b.p2
  let s3 := sumXY b.p3
  if s0 ≤ s1 ∧ s0 ≤ s2 ∧ s0 ≤ s3 then b
  else if s1 ≤ s2 ∧ s1 ≤ s3 then ⟨b.p1, b.p2, b.p3, b.p0⟩
  else if s2 ≤ s3 then ⟨b.p2, b.p3, b.p0, b.p1⟩
  else ⟨b.p3, b.p0, b.p1, b.p2⟩

/-- A contour: a list of `(x, y)` pixel coordinates. -/
abbrev Contour : Type := List (ℕ × ℕ)

/-- The external `cv2.findContours(segmap.astype('uint8'), RETR_TREE,
CHAIN_APPROX_SIMPLE)` collaborator: from the image dimensions and the
grid, the list of contours. -/
abbrev FindContoursFn : Type := ℕ → ℕ → Grid → List Contour

/-- The external `cv2.boxPoints(cv2.minAreaRect(contour))` collaborator:
the 4 corners of the minimum-area rotated rectangle of a contour. -/
abbrev BoxPointsFn : Type := Contour → PBox

/-- Result of one iteration of the component loop: filtered out
(`continue`), aborted by an exception, or one box appended. -/
inductive CompResult where
  | skip : CompResult
  | err : CompResult
  | box : PBox → CompResult
deriving DecidableEq

/-- The component loop body after the size filter (this part does not
depend on `size_threshold`):
reject when `np.max(textmap[labels == id]) < detection_threshold`;
build, carve and dilate the segmentation map; `contours[0]` raises
IndexError when `findContours` returns no contour (`err`), and
`cv2.minAreaRect` raises on an empty contour (`err`); otherwise fit the
box, apply the near-square correction or the clockwise roll, and return
`2 * box`. -/
def processComponentRest (fc : FindContoursFn) (bp : BoxPointsFn)
    (imgH imgW : ℕ) (textmap text_score link_score : Grid)
    (detection_threshold : ℚ) (comp : Component) : CompResult :=
  if compMax textmap comp < detection_threshold then .skip
  else
    match fc imgH imgW (dilatedSegOf imgH imgW text_score link_score comp) with
    | [] => .err
    | contour :: _ =>
        if contour = [] then .err
        else
          let box := bp contour
          let a := normSq box.p0 box.p1
          let b := normSq box.p1 box.p2
          let final := if diamondTest a b then diamondBox contour else rollBox box
          .box (scaleBox 2 final)

/-- One iteration of `for component_id in range(1, n_components)`:
`if size < size_threshold: continue`, then the rest. -/
def processComponent (fc : FindContoursFn) (bp : BoxPointsFn)
    (imgH imgW : ℕ) (textmap text_score link_score : Grid)
    (detection_threshold : ℚ) (size_threshold : ℕ) (comp : Component) :
    CompResult :=
  if comp.area < size_threshold then .skip
  else processComponentRest fc bp imgH imgW textmap text_score link_score
    detection_threshold comp

/-- Run the component loop, collecting boxes in order; an exception
aborts the whole call (`none`). -/
def runComps (pc : Component → CompResult) : List Component → Option (List PBox)
  | [] => some []
  | c :: rest =>
      match pc c with
      | .skip => runComps pc rest
      | .err => none
      | .box b => (runComps pc rest).map (b :: ·)

/-- The foreground mask fed to `cv2.connectedComponentsWithStats`:
`np.clip(text_score + link_score, 0, 1).astype('uint8')`, nonzero
pixels being foreground. -/
def fgMask (text_score link_score : Grid) : ℕ → ℕ → Bool :=
  fun i j => min 1 (max 0 (text_score i j + link_score i j)) ≠ 0

/-- The per-image body of `getBoxes` (one `y_pred_cur`): copy the two
channels, binarize them, label the 4-connected components of the union
mask, and run the component loop. -/
def extractOne (fc : FindContoursFn) (bp : BoxPointsFn) (pair : HeatPair)
    (detection_threshold text_threshold link_threshold : ℚ)
    (size_threshold : ℕ) : Option (List PBox) :=
  runComps
    (processComponent fc bp pair.h pair.w pair.text
      (cvThreshold text_threshold pair.text)
      (cvThreshold link_threshold pair.link)
      detection_threshold size_threshold)
    (componentsOf pair.h pair.w
      (labelGrid pair.h pair.w
        (fgMask (cvThreshold text_threshold pair.text)
          (cvThreshold link_threshold pair.link))))

/-- Sequence a fallible computation over a list, aborting on the first
failure (a Python exception aborts the whole loop). -/
def mapMaybe (f : α → Option β) : List α → Option (List β)
  | [] => some []
  | a :: l =>
      match f a with
      | none => none
      | some b => (mapMaybe f l).map (b :: ·)

/-- `getBoxes(y_pred, detection_threshold=0.7, text_threshold=0.4,
link_threshold=0.4, size_threshold=10)`: one box group per heatmap
pair. -/
def getBoxes (fc : FindContoursFn) (bp : BoxPointsFn) (y_pred : List HeatPair)
    (detection_threshold text_threshold link_threshold : ℚ)
    (size_threshold : ℕ) : Option (List (List PBox)) :=
  mapMaybe
    (fun p => extractOne fc bp p detection_threshold text_threshold
      link_threshold size_threshold)
    y_pred

/-! ### Store model for the frame-effect claim

numpy arrays live in a store (a list of array values); an arriving
argument is a reference (index) into it.  `astype`/`.copy()`/operator
results allocate fresh cells (numpy `astype` copies by default and
`cv2` calls return fresh output arrays); the in-place operators `-=`,
`/=`, `*=`, `+=` and slice/fancy assignments write their cell in place.
Anonymous temporaries that are never written after creation (e.g.
`mean * 255`) are not tracked.  Array-content computations reuse the
pure definitions above. -/

/-- Default image value for out-of-store reads. -/
def dImg : Image3 := fun _ _ _ => 0

/-- `image.astype('float32')`: value-identical copy (the allocation is
recorded at the store level). -/
def astypeFloat (img : Image3) : Image3 := img

/-- The broadcast in-place subtraction `image -= mean * 255`. -/
def imgSubMean (img : Image3) : Image3 :=
  fun i j c => img i j c - channelMean c * 255

/-- The broadcast in-place division `image /= variance * 255`. -/
def imgDivVar (img : Image3) : Image3 :=
  fun i j c => img i j c / (channelVariance c * 255)

/-- The broadcast in-place multiplication `X *= variance * 255`. -/
def imgMulVar (img : Image3) : Image3 :=
  fun i j c => img i j c * (channelVariance c * 255)

/-- The broadcast in-place addition `X += mean * 255`. -/
def imgAddMean (img : Image3) : Image3 :=
  fun i j c => img i j c + channelMean c * 255

/-- `X.clip(0, 255).astype('uint8')` as an array value (entries kept as
rationals; they are the integers `⌊min 255 (max 0 _)⌋`). -/
def imgClipCast (img : Image3) : Image3 :=
  fun i j c => ((⌊min 255 (max 0 (img i j c))⌋ : ℤ) : ℚ)

/-- Store-level `compute_input`: `image = image.astype('float32')`
allocates a copy, then both in-place operators write that copy.  Returns
the store and the reference of the result. -/
def compute_input_store (s : List Image3) (r : ℕ) : List Image3 × ℕ :=
  let r1 := s.length
  let s1 := s ++ [astypeFloat (s.getD r dImg)]
  let s2 := s1.set r1 (imgSubMean (s1.getD r1 dImg))
  let s3 := s2.set r1 (imgDivVar (s2.getD r1 dImg))
  (s3, r1)

/-- Store-level `invert_input`: `X = X.copy()` allocates, the two
in-place operators write the copy, and `X.clip(0,255).astype('uint8')`
allocates the returned array. -/
def invert_input_store (s : List Image3) (r : ℕ) : List Image3 × ℕ :=
  let r1 := s.length
  let s1 := s ++ [s.getD r dImg]
  let s2 := s1.set r1 (imgMulVar (s1.getD r1 dImg))
  let s3 := s2.set r1 (imgAddMean (s2.getD r1 dImg))
  let s4 := s3 ++ [imgClipCast (s3.getD r1 dImg)]
  (s4, s3.length)

/-- A store cell for `getBoxes`: a 3-channel float array (`y_pred_cur`),
a 2-D float array, or an integer label array. -/
inductive AVal where
  | a3 : (ℕ → ℕ → Fin 2 → ℚ) → AVal
  | a2 : Grid → AVal
  | ai : List (List ℕ) → AVal

/-- Default store value. -/
def dA : AVal := .a2 fun _ _ => 0

/-- Read a cell as a 3-channel array. -/
def AVal.as3 : AVal → (ℕ → ℕ → Fin 2 → ℚ)
  | .a3 f => f
  | _ => fun _ _ _ => 0

/-- Store traffic of one non-skipped component-loop iteration:
`segmap = np.zeros_like(textmap)` allocates; the 255 assignment and the
carve write it in place; `cv2.dilate` allocates its output and the slice
assignment writes `segmap` again. -/
def compStoreStep (text_score link_score : Grid) (imgH imgW : ℕ)
    (s : List AVal) (comp : Component) : List AVal :=
  let rS := s.length
  let s1 := s ++ [AVal.a2 fun _ _ => 0]
  let s2 := s1.set rS (AVal.a2 (segmapInit comp))
  let s3 := s2.set rS (AVal.a2 (segmapCarve text_score link_score (segmapInit comp)))
  let s4 := s3 ++ [AVal.a2 (dilatedSegOf imgH imgW text_score link_score comp)]
  let s5 := s4.set rS (AVal.a2 (dilatedSegOf imgH imgW text_score link_score comp))
  s5

/-- The component loop at store level: a filtered component allocates
nothing (both filters precede the segmap construction); a component that
reaches the contour stage performs its store traffic; an exception stops
the loop with the store as it stands. -/
def compsStoreLoop (fc : FindContoursFn) (bp : BoxPointsFn)
    (textmap text_score link_score : Grid) (imgH imgW : ℕ)
    (dt : ℚ) (st : ℕ) :
    List AVal → List Component → List AVal × Option (List PBox)
  | s, [] => (s, some [])
  | s, c :: rest =>
      match processComponent fc bp imgH imgW textmap text_score link_score dt st c with
      | .skip => compsStoreLoop fc bp textmap text_score link_score imgH imgW dt st s rest
      | .err => (compStoreStep text_score link_score imgH imgW s c, none)
      | .box b =>
          let s1 := compStoreStep text_score link_score imgH imgW s c
          let res := compsStoreLoop fc bp textmap text_score link_score imgH imgW dt st s1 rest
          (res.1, res.2.map (b :: ·))

/-- The per-image body of `getBoxes` at store level: `y_pred_cur` is a
reference `r` (with its dimensions); the two channel copies, the two
`cv2.threshold` outputs and the `cv2.connectedComponentsWithStats`
label array are allocated, then the component loop runs. -/
def extractOneStore (fc : FindContoursFn) (bp : BoxPointsFn)
    (s : List AVal) (r imgH imgW : ℕ) (dt tt lt : ℚ) (st : ℕ) :
    List AVal × Option (List PBox) :=
  let ypc := (s.getD r dA).as3
  let textmap : Grid := fun i j => ypc i j 0
  let linkmap : Grid := fun i j => ypc i j 1
  let s1 := s ++ [AVal.a2 textmap]
  let s2 := s1 ++ [AVal.a2 linkmap]
  let s3 := s2 ++ [AVal.a2 (cvThreshold tt textmap)]
  let s4 := s3 ++ [AVal.a2 (cvThreshold lt linkmap)]
  let lab := labelGrid imgH imgW (fgMask (cvThreshold tt textmap) (cvThreshold lt linkmap))
  let s5 := s4 ++ [AVal.ai lab]
  compsStoreLoop fc bp textmap (cvThreshold tt textmap) (cvThreshold lt linkmap)
    imgH imgW dt st s5 (componentsOf imgH imgW lab)

/-- `getBoxes` at store level: the input batch is a list of references
with dimensions; an exception aborts the remaining images. -/
def getBoxesStore (fc : FindContoursFn) (bp : BoxPointsFn)
    (dt tt lt : ℚ) (st : ℕ) :
    List AVal → List (ℕ × ℕ × ℕ) → List AVal × Option (List (List PBox))
  | s, [] => (s, some [])
  | s, (r, imgH, imgW) :: rest =>
      let one := extractOneStore fc bp s r imgH imgW dt tt lt st
      match one.2 with
      | none => (one.1, none)
      | some g =>
          let res := getBoxesStore fc bp dt tt lt st one.1 rest
          (res.1, res.2.map (g :: ·))

/-! ### Concrete inputs used by witnesses and counterexamples -/

/-- A constant valid 8-bit test image. -/
def c5img : Image3 := fun _ _ _ => 7

/-- A one-pixel map holding exactly the threshold value `0.4`. -/
def gC2 : Grid := fun _ _ => 4 / 10

/-- A 4×5 heatmap pair with a 2×5 block where both the text and the link
channel are 0.9: under the default thresholds the block is one
4-connected component of area 10 whose every pixel has both binary masks
set, so the carving step empties its segmentation map. -/
def c1pair : HeatPair :=
  ⟨4, 5, (fun i j => if i < 2 ∧ j < 5 then 9 / 10 else 0),
         (fun i j => if i < 2 ∧ j < 5 then 9 / 10 else 0)⟩

/-- The unique component of `c1pair` under the default thresholds. -/
def c1comp : Component :=
  ⟨[(0, 0), (0, 1), (0, 2), (0, 3), (0, 4), (1, 0), (1, 1), (1, 2), (1, 3), (1, 4)]⟩

/-- A 1×1 heatmap pair with one strong text pixel and no link. -/
def pairC6 : HeatPair :=
  ⟨1, 1, (fun i j => if i = 0 ∧ j = 0 then 1 else 0), fun _ _ => 0⟩

/-- A contour finder returning one one-point contour (used to witness). -/
def fcC6 : FindContoursFn := fun _ _ _ => [[(0, 0)]]

/-- A box-points collaborator returning a fixed clockwise unit square. -/
def bpC6 : BoxPointsFn := fun _ => ⟨(0, 0), (1, 0), (1, 1), (0, 1)⟩

/-- The degenerate box extracted from `pairC6` (near-square branch on a
one-point contour, scaled by 2). -/
def boxC6 : PBox := ⟨(0, 0), (0, 0), (0, 0), (0, 0)⟩

/-- An all-zero 1×1 heatmap pair (no components). -/
def pairZ : HeatPair := ⟨1, 1, (fun _ _ => 0), fun _ _ => 0⟩

/-- A contour finder returning no contours. -/
def fcE : FindContoursFn := fun _ _ _ => []

/-- A box-points collaborator returning a fixed box. -/
def bpZ : BoxPointsFn := fun _ => ⟨(0, 0), (1, 0), (1, 1), (0, 1)⟩

/-- A warp collaborator returning the zero image. -/
def warpZ : WarpFn := fun _ _ _ _ => fun _ _ => 0

/-- A 1×1 kernel image. -/
def kernel1 : KernelImg := [[1]]

/-- The map returned by `compute_maps warpZ kernel1 2 2 []`. -/
def mC8 : ℕ → ℕ → Fin 2 → ℚ :=
  fun _ _ ch => min 255 (max 0 (if ch = 0 then (0 : ℚ) else 0)) / 255

/-- A single-quad line with label `a`. -/
def linesA : List TextLine := [[⟨1, 2, 3, 4, 5, 6, 7, 8, 'a'⟩]]

/-- The same quad with label `b` (agrees with `linesA` on coordinates
and on the space pattern). -/
def linesB : List TextLine := [[⟨1, 2, 3, 4, 5, 6, 7, 8, 'b'⟩]]

/-- A one-image store (for the frame-effect witness). -/
def sImg : List Image3 := [fun _ _ _ => 3]

/-- A one-array store for the `getBoxes` frame-effect witness. -/
def sA : List AVal := [AVal.a3 fun _ _ _ => 0]

/-! ### Helper lemmas -/

theorem foldl_min_le_init {α : Type} (f : α → ℕ) :
    ∀ (ps : List α) (x : ℕ), ps.foldl (fun a q => min a (f q)) x ≤ x := by
  intro ps
  induction ps with
  | nil => intro x; exact le_rfl
  | cons p ps ih =>
      intro x
      exact le_trans (ih (min x (f p))) (min_le_left _ _)

theorem init_le_foldl_max {α : Type} (f : α → ℕ) :
    ∀ (ps : List α) (x : ℕ), x ≤ ps.foldl (fun a q => max a (f q)) x := by
  intro ps
  induction ps with
  | nil => intro x; exact le_rfl
  | cons p ps ih =>
      intro x
      exact le_trans (le_max_left _ _) (ih (max x (f p)))

/-! ### C5: normalize/denormalize round-trip -/

/-- C5: for every valid 8-bit RGB image (channel values in `[0, 255]`),
`invert_input (compute_input I)` returns an image equal to `I` up to a
tolerance of ±1 in each channel of each pixel. -/
theorem invert_compute_roundtrip (img : Image3) (i j : ℕ) (c : Fin 3)
    (h0 : 0 ≤ img i j c) (h255 : img i j c ≤ 255) :
    |((invert_input_image (compute_input_image img) i j c : ℚ)) - img i j c| ≤ 1 := by
  have hv : channelVariance c * 255 ≠ 0 := by
    fin_cases c <;> norm_num [channelVariance]
  simp only [invert_input_image, compute_input_image, invert_input, compute_input]
  rw [div_mul_cancel₀ _ hv, sub_add_cancel, max_eq_right h0, min_eq_right h255]
  have hle : (⌊img i j c⌋ : ℚ) ≤ img i j c := Int.floor_le _
  have hlt : img i j c < (⌊img i j c⌋ : ℚ) + 1 := Int.lt_floor_add_one _
  rw [abs_le]
  constructor <;> linarith

theorem invert_compute_roundtrip_witness :
    |((invert_input_image (compute_input_image c5img) 0 0 0 : ℚ)) - c5img 0 0 0| ≤ 1 :=
  invert_compute_roundtrip c5img 0 0 0 (by norm_num [c5img]) (by norm_num [c5img])

/-! ### C2: binarization threshold type -/

/-- C2 (counterexample): it is not true that every pixel whose value is
greater than or equal to the threshold is mapped to 1 by the
binarization; at a pixel exactly equal to the threshold the output is 0
(OpenCV `THRESH_BINARY` compares strictly). -/
theorem cvThreshold_ge_claim_false :
    ¬ ∀ (t : ℚ) (g : Grid) (i j : ℕ), t ≤ g i j → cvThreshold t g i j = 1 := by
  intro h
  have := h (4 / 10) gC2 0 0 (by norm_num [gC2])
  simp only [cvThreshold, gC2] at this
  norm_num at this

/-- C2 (amended): the binarization of a map at a threshold maps a pixel
to 1 exactly when its value is strictly greater than the threshold, and
to 0 exactly when its value is less than or equal to the threshold (so a
pixel equal to the threshold maps to 0). -/
theorem cvThreshold_strictly_greater (t : ℚ) (g : Grid) (i j : ℕ) :
    (cvThreshold t g i j = 1 ↔ t < g i j) ∧
    (cvThreshold t g i j = 0 ↔ g i j ≤ t) := by
  simp only [cvThreshold]
  split_ifs with h
  · constructor
    · simp [h]
    · constructor
      · intro h1; norm_num at h1
      · intro h1; exact absurd h (not_lt.2 h1)
  · constructor
    · constructor
      · intro h1; norm_num at h1
      · intro h1; exact absurd h1 h
    · simp [not_lt.1 h]

theorem cvThreshold_strictly_greater_witness :
    (cvThreshold (4 / 10) gC2 0 0 = 1 ↔ (4 : ℚ) / 10 < gC2 0 0) ∧
    (cvThreshold (4 / 10) gC2 0 0 = 0 ↔ gC2 0 0 ≤ 4 / 10) :=
  cvThreshold_strictly_greater (4 / 10) gC2 0 0

/-! ### C4: compute_maps dimension check -/

/-- C4: target synthesis fails (with the `AssertionError` of the evenness
asserts) if and only if the image height or the image width is odd; for
even dimensions it returns a result (it never rounds an odd dimension). -/
theorem compute_maps_none_iff (warp : WarpFn) (heatmap : KernelImg)
    (image_height image_width : ℕ) (lines : List TextLine) :
    compute_maps warp heatmap image_height image_width lines = none ↔
      (image_height % 2 ≠ 0 ∨ image_width % 2 ≠ 0) := by
  rw [compute_maps]
  split_ifs with h1 h2
  · simp [h1]
  · simp [h1, h2]
  · simp [h1, h2]

/-! ### C8: synthesized maps lie in [0, 1] -/

/-- C8: every element of both channels of a map returned by
`compute_maps` lies in the closed interval `[0, 1]` (the result is
clipped to `[0, 255]` and divided by 255). -/
theorem compute_maps_bounds (warp : WarpFn) (heatmap : KernelImg)
    (image_height image_width : ℕ) (lines : List TextLine)
    (m : ℕ → ℕ → Fin 2 → ℚ)
    (hm : compute_maps warp heatmap image_height image_width lines = some m)
    (i j : ℕ) (ch : Fin 2) : 0 ≤ m i j ch ∧ m i j ch ≤ 1 := by
  rw [compute_maps] at hm
  split_ifs at hm
  have hm' := Option.some.inj hm
  subst hm'
  constructor
  · apply div_nonneg _ (by norm_num : (0 : ℚ) ≤ 255)
    exact le_min (by norm_num) (le_max_left _ _)
  · rw [div_le_one (by norm_num : (0 : ℚ) < 255)]
    exact min_le_left _ _

theorem compute_maps_bounds_witness : 0 ≤ mC8 0 0 0 ∧ mC8 0 0 0 ≤ 1 :=
  compute_maps_bounds warpZ kernel1 2 2 [] mC8 (by with_unfolding_all rfl) 0 0 0

/-! ### C3: Gaussian kernel formula -/

/-- C3 (amended): at each pixel `(i, j)` the kernel holds the truncation
(floor, not rounding) of `255 * exp(-0.5 * d^2)`, where `d` is the
Euclidean norm of the numpy linspace coordinates (running from `-size/2`
to `size/2` with spacing `size/(size-1)`, not integer coordinates)
scaled by `distanceRatio / (size/2)`; the `[0, 255]` clip never bites. -/
theorem get_gaussian_heatmap_closed_form (size : ℕ) (distanceRatio : ℝ) (i j : ℕ) :
    get_gaussian_heatmap size distanceRatio i j =
      ⌊255 * Real.exp (-(1 / 2) * ((distanceRatio / ((size : ℝ) / 2)) ^ 2 *
        (linspaceAbs size i ^ 2 + linspaceAbs size j ^ 2)))⌋ := by
  show ⌊min 255 (max 0 (Real.exp (-(1 / 2) *
      (Real.sqrt (linspaceAbs size j ^ 2 + linspaceAbs size i ^ 2) *
        (distanceRatio / ((size : ℝ) / 2))) ^ 2) * 255))⌋ = _
  have hb : (0 : ℝ) ≤ linspaceAbs size j ^ 2 + linspaceAbs size i ^ 2 := by positivity
  have harg : -(1 / 2 : ℝ) * (Real.sqrt (linspaceAbs size j ^ 2 + linspaceAbs size i ^ 2) *
      (distanceRatio / ((size : ℝ) / 2))) ^ 2
      = -(1 / 2) * ((distanceRatio / ((size : ℝ) / 2)) ^ 2 *
        (linspaceAbs size i ^ 2 + linspaceAbs size j ^ 2)) := by
    rw [mul_pow, Real.sq_sqrt hb]; ring
  rw [harg]
  set A : ℝ := -(1 / 2) * ((distanceRatio / ((size : ℝ) / 2)) ^ 2 *
    (linspaceAbs size i ^ 2 + linspaceAbs size j ^ 2)) with hA
  have hA0 : A ≤ 0 := by
    rw [hA]
    have : (0 : ℝ) ≤ (distanceRatio / ((size : ℝ) / 2)) ^ 2 *
        (linspaceAbs size i ^ 2 + linspaceAbs size j ^ 2) := by positivity
    linarith
  have he1 : Real.exp A ≤ 1 := Real.exp_le_one_iff.2 hA0
  have hge : (0 : ℝ) ≤ Real.exp A * 255 := by positivity
  have hle : Real.exp A * 255 ≤ 255 := by nlinarith
  rw [max_eq_right hge, min_eq_right hle, mul_comm]

/-- C3 (counterexample): at `size = 3`, `distanceRatio = 3`, pixel
`(0, 0)`, the implementation yields `⌊255·e⁻⁹⌋ = 0` (linspace corner
coordinate 1.5, truncation) while the claim's formula (integer corner
coordinate 1, rounding) yields `round(255·e⁻⁴) ≥ 1`. -/
theorem get_gaussian_heatmap_claim_false :
    get_gaussian_heatmap 3 3 0 0 ≠ gaussianHeatmapClaim 3 3 0 0 := by
  have hlin : linspaceAbs 3 0 = 3 / 2 := by
    rw [linspaceAbs]
    norm_num
  -- the implementation value is 0
  have hexp9 : (255 : ℝ) < Real.exp 9 := by
    have h1 : (17 / 8 : ℝ) ≤ Real.exp (9 / 8) := by
      have := Real.add_one_le_exp (9 / 8 : ℝ)
      linarith
    have h2 : ((17 / 8 : ℝ)) ^ (8 : ℕ) ≤ Real.exp (9 / 8) ^ (8 : ℕ) :=
      pow_le_pow_left₀ (by norm_num) h1 8
    have h3 : Real.exp ((8 : ℕ) * (9 / 8 : ℝ)) = Real.exp (9 / 8) ^ (8 : ℕ) :=
      Real.exp_nat_mul _ 8
    have h4 : ((8 : ℕ) : ℝ) * (9 / 8 : ℝ) = 9 := by norm_num
    have h5 : (255 : ℝ) < (17 / 8 : ℝ) ^ (8 : ℕ) := by norm_num
    calc (255 : ℝ) < (17 / 8 : ℝ) ^ (8 : ℕ) := h5
      _ ≤ Real.exp (9 / 8) ^ (8 : ℕ) := h2
      _ = Real.exp ((8 : ℕ) * (9 / 8 : ℝ)) := h3.symm
      _ = Real.exp 9 := by rw [h4]
  have himpl : get_gaussian_heatmap 3 3 0 0 = 0 := by
    rw [get_gaussian_heatmap_closed_form, hlin]
    have harg : -(1 / 2 : ℝ) * (((3 : ℝ) / (((3 : ℕ) : ℝ) / 2)) ^ 2 *
        ((3 / 2 : ℝ) ^ 2 + (3 / 2 : ℝ) ^ 2)) = -9 := by
      norm_num
    rw [harg]
    have h0 : (0 : ℝ) ≤ 255 * Real.exp (-9) := by positivity
    have h1 : 255 * Real.exp (-9) < 1 := by
      rw [Real.exp_neg]
      rw [mul_inv_lt_iff₀ (Real.exp_pos 9)]
      simpa using hexp9
    exact Int.floor_eq_zero_iff.2 ⟨h0, h1⟩
  -- the claim's value is at least 1
  have hexp4 : Real.exp 4 ≤ 510 := by
    have h1 : Real.exp 1 < 2.7182818286 := Real.exp_one_lt_d9
    have h2 : Real.exp ((4 : ℕ) * (1 : ℝ)) = Real.exp 1 ^ (4 : ℕ) := Real.exp_nat_mul _ 4
    have h3 : Real.exp 1 ^ (4 : ℕ) ≤ (2.7182818286 : ℝ) ^ (4 : ℕ) :=
      pow_le_pow_left₀ (Real.exp_nonneg 1) (le_of_lt h1) 4
    have h4 : ((2.7182818286 : ℝ)) ^ (4 : ℕ) ≤ 510 := by norm_num
    calc Real.exp 4 = Real.exp ((4 : ℕ) * (1 : ℝ)) := by norm_num
      _ = Real.exp 1 ^ (4 : ℕ) := h2
      _ ≤ (2.7182818286 : ℝ) ^ (4 : ℕ) := h3
      _ ≤ 510 := h4
  have hclaim : 1 ≤ gaussianHeatmapClaim 3 3 0 0 := by
    show 1 ≤ min 255 (max 0 (round (255 * Real.exp (-(1 / 2) *
      (Real.sqrt ((((0 : ℤ) - ((3 : ℤ) - 1) / 2 : ℤ) : ℝ) ^ 2 +
        (((0 : ℤ) - ((3 : ℤ) - 1) / 2 : ℤ) : ℝ) ^ 2) * ((3 : ℝ) / (((3 : ℕ) : ℝ) / 2))) ^ 2))))
    have hc : (((0 : ℤ) - ((3 : ℤ) - 1) / 2 : ℤ) : ℝ) = -1 := by norm_num
    rw [hc]
    have hsq : ((-1 : ℝ)) ^ 2 + ((-1 : ℝ)) ^ 2 = 2 := by norm_num
    rw [hsq]
    have harg : -(1 / 2 : ℝ) * (Real.sqrt 2 * ((3 : ℝ) / (((3 : ℕ) : ℝ) / 2))) ^ 2 = -4 := by
      rw [mul_pow, Real.sq_sqrt (by norm_num : (0 : ℝ) ≤ 2)]
      norm_num
    rw [harg]
    have hval : (1 / 2 : ℝ) ≤ 255 * Real.exp (-4) := by
      rw [Real.exp_neg, ← div_eq_mul_inv, le_div_iff₀ (Real.exp_pos 4)]
      linarith [hexp4]
    have hr : (1 : ℤ) ≤ round (255 * Real.exp (-4)) := by
      rw [round_eq]
      have : (1 : ℝ) ≤ 255 * Real.exp (-4) + 1 / 2 := by linarith
      exact_mod_cast Int.le_floor.2 (by exact_mod_cast this)
    have hmax : (1 : ℤ) ≤ max 0 (round (255 * Real.exp (-4))) := le_trans hr (le_max_right _ _)
    exact le_min (by norm_num) hmax
  omega

/-! ### C10: label independence of target synthesis -/

theorem synthStep_agree (warp : WarpFn) (src : List (ℚ × ℚ)) (dsize : ℕ × ℕ)
    (heatmap : KernelImg) (st : SynthState) (e f : CharBox)
    (h : charBoxAgree e f = true) :
    synthStep warp src dsize heatmap st e = synthStep warp src dsize heatmap st f := by
  simp only [charBoxAgree] at h
  have hp := of_decide_eq_true h
  obtain ⟨h1, h2, h3, h4, h5, h6, h7, h8, hc⟩ := hp
  by_cases hsp : e.c = ' '
  · rw [synthStep, synthStep, if_pos hsp, if_pos (hc.1 hsp)]
  · rw [synthStep, synthStep, if_neg hsp, if_neg fun hf => hsp (hc.2 hf)]
    rw [h1, h2, h3, h4, h5, h6, h7, h8]

theorem foldl_synthStep_agree (warp : WarpFn) (src : List (ℚ × ℚ)) (dsize : ℕ × ℕ)
    (heatmap : KernelImg) :
    ∀ (le lf : List CharBox) (st : SynthState), le.length = lf.length →
      (le.zip lf).all (fun p => charBoxAgree p.1 p.2) = true →
      le.foldl (synthStep warp src dsize heatmap) st =
        lf.foldl (synthStep warp src dsize heatmap) st := by
  intro le
  induction le with
  | nil =>
      intro lf st hlen _
      cases lf with
      | nil => rfl
      | cons f lf => simp at hlen
  | cons e le ih =>
      intro lf st hlen hall
      cases lf with
      | nil => simp at hlen
      | cons f lf =>
          simp only [List.zip_cons_cons, List.all_cons, Bool.and_eq_true] at hall
          simp only [List.foldl_cons]
          rw [synthStep_agree warp src dsize heatmap st e f hall.1]
          exact ih lf _ (by simpa using hlen) hall.2

theorem lines_foldl_agree (warp : WarpFn) (src : List (ℚ × ℚ)) (dsize : ℕ × ℕ)
    (heatmap : KernelImg) :
    ∀ (L1 L2 : List TextLine) (init : Grid × Grid), linesAgree L1 L2 = true →
      L1.foldl (lineFold warp src dsize heatmap) init =
        L2.foldl (lineFold warp src dsize heatmap) init := by
  intro L1
  induction L1 with
  | nil =>
      intro L2 init h
      cases L2 with
      | nil => rfl
      | cons l2 r2 => simp [linesAgree] at h
  | cons l1 r1 ih =>
      intro L2 init h
      cases L2 with
      | nil => simp [linesAgree] at h
      | cons l2 r2 =>
          simp only [linesAgree] at h
          have hp := of_decide_eq_true h
          obtain ⟨⟨hlen, hall⟩, hrest⟩ := hp
          simp only [List.foldl_cons]
          have hF : lineFold warp src dsize heatmap init l1 =
              lineFold warp src dsize heatmap init l2 := by
            simp only [lineFold]
            rw [foldl_synthStep_agree warp src dsize heatmap l1 l2 _ hlen hall]
          rw [hF]
          exact ih r2 _ hrest

/-- C10: the output of target synthesis is independent of the identity of
non-space character labels: two line lists agreeing on all quad
coordinates and on which entries carry the space sentinel produce
identical text and link maps. -/
theorem compute_maps_label_independent (warp : WarpFn) (heatmap : KernelImg)
    (image_height image_width : ℕ) (L1 L2 : List TextLine)
    (h : linesAgree L1 L2 = true) :
    compute_maps warp heatmap image_height image_width L1 =
      compute_maps warp heatmap image_height image_width L2 := by
  rw [compute_maps, compute_maps]
  split_ifs with h1 h2
  · rfl
  · rfl
  · dsimp only
    rw [lines_foldl_agree warp _ _ heatmap L1 L2 _ h]

theorem compute_maps_label_independent_witness :
    compute_maps warpZ kernel1 2 2 linesA = compute_maps warpZ kernel1 2 2 linesB :=
  compute_maps_label_independent warpZ kernel1 2 2 linesA linesB
    (of_decide_eq_true (by with_unfolding_all rfl))

/-! ### Component-loop helper lemmas -/

theorem runComps_nil (pc : Component → CompResult) : runComps pc [] = some [] := rfl

theorem runComps_cons_skip {pc : Component → CompResult} {c : Component}
    (rest : List Component) (h : pc c = .skip) :
    runComps pc (c :: rest) = runComps pc rest := by
  rw [runComps, h]

theorem runComps_cons_err {pc : Component → CompResult} {c : Component}
    (rest : List Component) (h : pc c = .err) :
    runComps pc (c :: rest) = none := by
  rw [runComps, h]

theorem runComps_cons_box {pc : Component → CompResult} {c : Component} {b : PBox}
    (rest : List Component) (h : pc c = .box b) :
    runComps pc (c :: rest) = (runComps pc rest).map (b :: ·) := by
  rw [runComps, h]

theorem mapMaybe_cons_none {α β : Type} {f : α → Option β} {a : α}
    (l : List α) (h : f a = none) : mapMaybe f (a :: l) = none := by
  rw [mapMaybe, h]

theorem mapMaybe_cons_some {α β : Type} {f : α → Option β} {a : α} {b : β}
    (l : List α) (h : f a = some b) :
    mapMaybe f (a :: l) = (mapMaybe f l).map (b :: ·) := by
  rw [mapMaybe, h]

theorem runComps_mem (pc : Component → CompResult) :
    ∀ (comps : List Component) (g : List PBox), runComps pc comps = some g →
      ∀ b ∈ g, ∃ c ∈ comps, pc c = .box b := by
  intro comps
  induction comps with
  | nil =>
      intro g hg b hb
      rw [runComps_nil] at hg
      cases hg
      simp at hb
  | cons c rest ih =>
      intro g hg b hb
      cases hpc : pc c with
      | skip =>
          rw [runComps_cons_skip rest hpc] at hg
          obtain ⟨c', hc', h⟩ := ih g hg b hb
          exact ⟨c', List.mem_cons_of_mem _ hc', h⟩
      | err =>
          rw [runComps_cons_err rest hpc] at hg
          cases hg
      | box b' =>
          rw [runComps_cons_box rest hpc] at hg
          cases hrest : runComps pc rest with
          | none => rw [hrest] at hg; cases hg
          | some g' =>
              rw [hrest] at hg
              simp only [Option.map_some'] at hg
              cases hg
              rcases List.mem_cons.1 hb with rfl | hb2
              · exact ⟨c, List.mem_cons_self _ _, hpc⟩
              · obtain ⟨c', hc', h⟩ := ih g' hrest b hb2
                exact ⟨c', List.mem_cons_of_mem _ hc', h⟩

theorem runComps_length_mono (pc1 pc2 : Component → CompResult)
    (hpc : ∀ c, pc2 c = pc1 c ∨ pc2 c = .skip) :
    ∀ (comps : List Component) (g1 g2 : List PBox),
      runComps pc1 comps = some g1 → runComps pc2 comps = some g2 →
      g2.length ≤ g1.length := by
  intro comps
  induction comps with
  | nil =>
      intro g1 g2 h1 h2
      rw [runComps_nil] at h1 h2
      cases h1; cases h2; exact le_rfl
  | cons c rest ih =>
      intro g1 g2 h1 h2
      cases hpc1 : pc1 c with
      | skip =>
          rw [runComps_cons_skip rest hpc1] at h1
          have h2' : pc2 c = .skip := by
            rcases hpc c with he | hs
            · rw [he, hpc1]
            · exact hs
          rw [runComps_cons_skip rest h2'] at h2
          exact ih g1 g2 h1 h2
      | err =>
          rw [runComps_cons_err rest hpc1] at h1
          cases h1
      | box b =>
          rw [runComps_cons_box rest hpc1] at h1
          cases hr1 : runComps pc1 rest with
          | none => rw [hr1] at h1; cases h1
          | some g1' =>
              rw [hr1] at h1
              simp only [Option.map_some'] at h1
              cases h1
              rcases hpc c with he | hs
              · rw [runComps_cons_box rest (he.trans hpc1)] at h2
                cases hr2 : runComps pc2 rest with
                | none => rw [hr2] at h2; cases h2
                | some g2' =>
                    rw [hr2] at h2
                    simp only [Option.map_some'] at h2
                    cases h2
                    simpa using ih g1' g2' hr1 hr2
              · rw [runComps_cons_skip rest hs] at h2
                have := ih g1' g2 hr1 h2
                simp only [List.length_cons]
                omega
          
theorem mapMaybe_mem {α : Type} (f : α → Option (List PBox)) :
    ∀ (l : List α) (r : List (List PBox)), mapMaybe f l = some r →
      ∀ b ∈ r.flatten, ∃ a ∈ l, ∃ g, f a = some g ∧ b ∈ g := by
  intro l
  induction l with
  | nil =>
      intro r hr b hb
      cases hr
      simp at hb
  | cons a l ih =>
      intro r hr b hb
      cases hfa : f a with
      | none => rw [mapMaybe_cons_none l hfa] at hr; cases hr
      | some g =>
          rw [mapMaybe_cons_some l hfa] at hr
          cases hrest : mapMaybe f l with
          | none => rw [hrest] at hr; cases hr
          | some r' =>
              rw [hrest] at hr
              simp only [Option.map_some'] at hr
              cases hr
              rw [List.flatten_cons] at hb
              rcases List.mem_append.1 hb with hbg | hbr
              · exact ⟨a, List.mem_cons_self _ _, g, hfa, hbg⟩
              · obtain ⟨a', ha', g', hg', hb'⟩ := ih r' hrest b hbr
                exact ⟨a', List.mem_cons_of_mem _ ha', g', hg', hb'⟩

theorem mapMaybe_join_length_mono {α : Type} (f1 f2 : α → Option (List PBox))
    (hf : ∀ a g1 g2, f1 a = some g1 → f2 a = some g2 → g2.length ≤ g1.length) :
    ∀ (l : List α) (r1 r2 : List (List PBox)),
      mapMaybe f1 l = some r1 → mapMaybe f2 l = some r2 →
      r2.flatten.length ≤ r1.flatten.length := by
  intro l
  induction l with
  | nil =>
      intro r1 r2 h1 h2
      cases h1; cases h2; exact le_rfl
  | cons a l ih =>
      intro r1 r2 h1 h2
      cases hf1 : f1 a with
      | none => rw [mapMaybe_cons_none l hf1] at h1; cases h1
      | some g1 =>
          cases hf2 : f2 a with
          | none => rw [mapMaybe_cons_none l hf2] at h2; cases h2
          | some g2 =>
              rw [mapMaybe_cons_some l hf1] at h1
              rw [mapMaybe_cons_some l hf2] at h2
              cases hr1 : mapMaybe f1 l with
              | none => rw [hr1] at h1; cases h1
              | some r1' =>
                  cases hr2 : mapMaybe f2 l with
                  | none => rw [hr2] at h2; cases h2
                  | some r2' =>
                      rw [hr1] at h1
                      rw [hr2] at h2
                      simp only [Option.map_some'] at h1 h2
                      cases h1; cases h2
                      have hrec := ih r1' r2' hr1 hr2
                      have hone := hf a g1 g2 hf1 hf2
                      simp only [List.flatten_cons, List.length_append]
                      omega

/-! ### C7: size-threshold monotonicity -/

/-- C7: for a fixed heatmap batch and fixed detection, text and link
thresholds, if both extractions succeed then a larger `size_threshold`
never yields more boxes (the size filter is the only place the threshold
enters, and it only discards components). -/
theorem getBoxes_size_threshold_mono (fc : FindContoursFn) (bp : BoxPointsFn)
    (y_pred : List HeatPair) (dt tt lt : ℚ) (t1 t2 : ℕ) (h12 : t1 ≤ t2)
    (bss1 bss2 : List (List PBox))
    (h1 : getBoxes fc bp y_pred dt tt lt t1 = some bss1)
    (h2 : getBoxes fc bp y_pred dt tt lt t2 = some bss2) :
    bss2.flatten.length ≤ bss1.flatten.length := by
  refine mapMaybe_join_length_mono _ _ ?_ y_pred bss1 bss2 h1 h2
  intro pair g1 g2 hg1 hg2
  rw [extractOne] at hg1 hg2
  refine runComps_length_mono _ _ ?_ _ g1 g2 hg1 hg2
  intro c
  by_cases hc : c.area < t2
  · right
    rw [processComponent, if_pos hc]
  · left
    have hc1 : ¬ c.area < t1 := fun hlt => hc (lt_of_lt_of_le hlt h12)
    rw [processComponent, processComponent, if_neg hc, if_neg hc1]

theorem getBoxes_size_threshold_mono_witness :
    ([([] : List PBox)]).flatten.length ≤ ([([] : List PBox)]).flatten.length :=
  getBoxes_size_threshold_mono fcE bpZ [pairZ] (7 / 10) (4 / 10) (4 / 10) 10 11
    (by norm_num) [([] : List PBox)] [([] : List PBox)]
    (by with_unfolding_all rfl) (by with_unfolding_all rfl)

/-! ### Orientation lemmas for the returned boxes -/

theorem shoelace_scaleBox (t : ℚ) (b : PBox) :
    shoelace (scaleBox t b) = t ^ 2 * shoelace b := by
  simp only [shoelace, scaleBox]
  ring

theorem sumXY_scaleBox (t : ℚ) (b : PBox) :
    sumXY (scaleBox t b).p0 = t * sumXY b.p0 ∧
    sumXY (scaleBox t b).p1 = t * sumXY b.p1 ∧
    sumXY (scaleBox t b).p2 = t * sumXY b.p2 ∧
    sumXY (scaleBox t b).p3 = t * sumXY b.p3 := by
  simp only [sumXY, scaleBox]
  refine ⟨by ring, by ring, by ring, by ring⟩

theorem diamondBox_bounds (p : ℕ × ℕ) (ps : List (ℕ × ℕ)) :
    ps.foldl (fun a q => min a q.1) p.1 ≤ ps.foldl (fun a q => max a q.1) p.1 ∧
    ps.foldl (fun a q => min a q.2) p.2 ≤ ps.foldl (fun a q => max a q.2) p.2 :=
  ⟨le_trans (foldl_min_le_init Prod.fst ps p.1) (init_le_foldl_max Prod.fst ps p.1),
   le_trans (foldl_min_le_init Prod.snd ps p.2) (init_le_foldl_max Prod.snd ps p.2)⟩

theorem shoelace_diamondBox (ct : Contour) : 0 ≤ shoelace (diamondBox ct) := by
  cases ct with
  | nil => norm_num [diamondBox, shoelace]
  | cons p ps =>
      obtain ⟨hx, hy⟩ := diamondBox_bounds p ps
      have hx' : ((ps.foldl (fun a q => min a q.1) p.1 : ℕ) : ℚ) ≤
          ((ps.foldl (fun a q => max a q.1) p.1 : ℕ) : ℚ) := by exact_mod_cast hx
      have hy' : ((ps.foldl (fun a q => min a q.2) p.2 : ℕ) : ℚ) ≤
          ((ps.foldl (fun a q => max a q.2) p.2 : ℕ) : ℚ) := by exact_mod_cast hy
      simp only [diamondBox, shoelace]
      nlinarith [mul_nonneg (sub_nonneg.2 hx') (sub_nonneg.2 hy')]

theorem minsum_diamondBox (ct : Contour) :
    sumXY (diamondBox ct).p0 ≤ sumXY (diamondBox ct).p1 ∧
    sumXY (diamondBox ct).p0 ≤ sumXY (diamondBox ct).p2 ∧
    sumXY (diamondBox ct).p0 ≤ sumXY (diamondBox ct).p3 := by
  cases ct with
  | nil => norm_num [diamondBox, sumXY]
  | cons p ps =>
      obtain ⟨hx, hy⟩ := diamondBox_bounds p ps
      have hx' : ((ps.foldl (fun a q => min a q.1) p.1 : ℕ) : ℚ) ≤
          ((ps.foldl (fun a q => max a q.1) p.1 : ℕ) : ℚ) := by exact_mod_cast hx
      have hy' : ((ps.foldl (fun a q => min a q.2) p.2 : ℕ) : ℚ) ≤
          ((ps.foldl (fun a q => max a q.2) p.2 : ℕ) : ℚ) := by exact_mod_cast hy
      simp only [diamondBox, sumXY]
      refine ⟨by linarith, by linarith, by linarith⟩

theorem shoelace_rollBox (b : PBox) : shoelace (rollBox b) = shoelace b := by
  simp only [rollBox]
  split_ifs <;> simp only [shoelace] <;> ring

theorem minsum_rollBox (b : PBox) :
    sumXY (rollBox b).p0 ≤ sumXY (rollBox b).p1 ∧
    sumXY (rollBox b).p0 ≤ sumXY (rollBox b).p2 ∧
    sumXY (rollBox b).p0 ≤ sumXY (rollBox b).p3 := by
  simp only [rollBox]
  split_ifs with h1 h2 h3
  · exact ⟨h1.1, h1.2.1, h1.2.2⟩
  · have hs10 : sumXY b.p1 ≤ sumXY b.p0 := by
      rcases le_or_lt (sumXY b.p1) (sumXY b.p0) with hle | hlt
      · exact hle
      · exact absurd ⟨le_of_lt hlt, le_trans (le_of_lt hlt) h2.1,
          le_trans (le_of_lt hlt) h2.2⟩ h1
    exact ⟨h2.1, h2.2, hs10⟩
  · have hs21 : sumXY b.p2 ≤ sumXY b.p1 := by
      by_cases hc : sumXY b.p1 ≤ sumXY b.p2
      · have h13 : ¬ sumXY b.p1 ≤ sumXY b.p3 := fun hh => h2 ⟨hc, hh⟩
        linarith [not_le.1 h13]
      · linarith [not_le.1 hc]
    have hs20 : sumXY b.p2 ≤ sumXY b.p0 := by
      by_cases ha : sumXY b.p0 ≤ sumXY b.p1
      · by_cases hcc : sumXY b.p0 ≤ sumXY b.p3
        · by_cases hb : sumXY b.p0 ≤ sumXY b.p2
          · exact absurd ⟨ha, hb, hcc⟩ h1
          · linarith [not_le.1 hb]
        · linarith [not_le.1 hcc]
      · linarith [not_le.1 ha]
    exact ⟨h3, hs20, hs21⟩
  · have hs32 : sumXY b.p3 ≤ sumXY b.p2 := le_of_lt (not_le.1 h3)
    have hs31 : sumXY b.p3 ≤ sumXY b.p1 := by
      by_cases hc : sumXY b.p1 ≤ sumXY b.p3
      · exact absurd ⟨le_trans hc hs32, hc⟩ h2
      · linarith [not_le.1 hc]
    have hs30 : sumXY b.p3 ≤ sumXY b.p0 := by
      by_cases ha : sumXY b.p0 ≤ sumXY b.p3
      · by_cases hb : sumXY b.p0 ≤ sumXY b.p1
        · by_cases hcc : sumXY b.p0 ≤ sumXY b.p2
          · exact absurd ⟨hb, hcc, ha⟩ h1
          · linarith [not_le.1 hcc]
        · linarith [not_le.1 hb]
      · linarith [not_le.1 ha]
    exact ⟨hs30, hs31, hs32⟩

theorem processComponentRest_box (fc : FindContoursFn) (bp : BoxPointsFn)
    (imgH imgW : ℕ) (textmap text_score link_score : Grid)
    (dt : ℚ) (comp : Component) (b : PBox)
    (h : processComponentRest fc bp imgH imgW textmap text_score link_score dt
      comp = .box b) :
    ∃ ct : Contour, b = scaleBox 2 (diamondBox ct) ∨ b = scaleBox 2 (rollBox (bp ct)) := by
  rw [processComponentRest] at h
  split_ifs at h with hdet
  cases hfc : fc imgH imgW (dilatedSegOf imgH imgW text_score link_score comp) with
  | nil => rw [hfc] at h; cases h
  | cons ct cts =>
      rw [hfc] at h
      simp only at h
      split_ifs at h with hct hd
      · exact ⟨ct, Or.inl (CompResult.box.inj h).symm⟩
      · exact ⟨ct, Or.inr (CompResult.box.inj h).symm⟩

/-! ### C6: clockwise invariant of returned boxes -/

/-- C6: provided the external `boxPoints` collaborator returns its four
rectangle corners in clockwise order (nonnegative image-coordinate
shoelace sum, as OpenCV does), every box returned by `getBoxes` —
including boxes from the near-square correction branch — traverses
clockwise and its point 0 minimizes the coordinate sum `x + y` among the
four points. -/
theorem getBoxes_clockwise (fc : FindContoursFn) (bp : BoxPointsFn)
    (hbp : ∀ ct : Contour, 0 ≤ shoelace (bp ct))
    (y_pred : List HeatPair) (dt tt lt : ℚ) (st : ℕ)
    (bss : List (List PBox))
    (hsome : getBoxes fc bp y_pred dt tt lt st = some bss)
    (b : PBox) (hb : b ∈ bss.flatten) :
    0 ≤ shoelace b ∧ sumXY b.p0 ≤ sumXY b.p1 ∧
      sumXY b.p0 ≤ sumXY b.p2 ∧ sumXY b.p0 ≤ sumXY b.p3 := by
  rw [getBoxes] at hsome
  obtain ⟨pair, _, g, hg, hbg⟩ := mapMaybe_mem _ y_pred bss hsome b hb
  rw [extractOne] at hg
  obtain ⟨comp, _, hpc⟩ := runComps_mem _ _ g hg b hbg
  rw [processComponent] at hpc
  split_ifs at hpc
  obtain ⟨ct, hform⟩ := processComponentRest_box _ _ _ _ _ _ _ _ _ _ hpc
  rcases hform with rfl | rfl
  · refine ⟨?_, ?_, ?_, ?_⟩
    · rw [shoelace_scaleBox]
      nlinarith [shoelace_diamondBox ct]
    all_goals
      obtain ⟨e0, e1, e2, e3⟩ := sumXY_scaleBox 2 (diamondBox ct)
      obtain ⟨m1, m2, m3⟩ := minsum_diamondBox ct
      rw [e0]
    · rw [e1]; linarith
    · rw [e2]; linarith
    · rw [e3]; linarith
  · refine ⟨?_, ?_, ?_, ?_⟩
    · rw [shoelace_scaleBox, shoelace_rollBox]
      nlinarith [hbp ct]
    all_goals
      obtain ⟨e0, e1, e2, e3⟩ := sumXY_scaleBox 2 (rollBox (bp ct))
      obtain ⟨m1, m2, m3⟩ := minsum_rollBox (bp ct)
      rw [e0]
    · rw [e1]; linarith
    · rw [e2]; linarith
    · rw [e3]; linarith

theorem getBoxes_clockwise_witness :
    0 ≤ shoelace boxC6 ∧ sumXY boxC6.p0 ≤ sumXY boxC6.p1 ∧
      sumXY boxC6.p0 ≤ sumXY boxC6.p2 ∧ sumXY boxC6.p0 ≤ sumXY boxC6.p3 :=
  getBoxes_clockwise fcC6 bpC6
    (fun _ => by norm_num [bpC6, shoelace])
    [pairC6] 0 (1 / 2) (1 / 2) 1 [[boxC6]]
    (by with_unfolding_all rfl) boxC6 (by simp)

/-! ### C1: empty segmentation map aborts the call -/

set_option maxRecDepth 10000 in
set_option maxHeartbeats 4000000 in
/-- C1: on `c1pair` (one 2×5 component of area 10, every pixel of which
has both binary masks set under the default thresholds, so the carving
step empties its segmentation map) `getBoxes` with the default thresholds
reaches `contours[0]` with no contour and aborts with an IndexError
(`none`), for every contour finder that finds no contour in an all-zero
image.  The component is *not* silently excluded: the whole call fails. -/
theorem getBoxes_empty_segmap_raises (fc : FindContoursFn) (bp : BoxPointsFn)
    (hfc : ∀ (h w : ℕ) (g : Grid), (∀ i, i < h → ∀ j, j < w → g i j = 0) →
      fc h w g = []) :
    getBoxes fc bp [c1pair] (7 / 10) (4 / 10) (4 / 10) 10 = none := by
  have hcomps : componentsOf c1pair.h c1pair.w
      (labelGrid c1pair.h c1pair.w
        (fgMask (cvThreshold (4 / 10) c1pair.text) (cvThreshold (4 / 10) c1pair.link)))
      = [c1comp] := of_decide_eq_true (by with_unfolding_all rfl)
  have hsize : ¬ (c1comp.area < 10) := of_decide_eq_true (by with_unfolding_all rfl)
  have hdet : ¬ (compMax c1pair.text c1comp < 7 / 10) :=
    of_decide_eq_true (by with_unfolding_all rfl)
  have hzero : ∀ i, i < c1pair.h → ∀ j, j < c1pair.w →
      dilatedSegOf c1pair.h c1pair.w (cvThreshold (4 / 10) c1pair.text)
        (cvThreshold (4 / 10) c1pair.link) c1comp i j = 0 :=
    of_decide_eq_true (by with_unfolding_all rfl)
  have hfc0 : fc c1pair.h c1pair.w
      (dilatedSegOf c1pair.h c1pair.w (cvThreshold (4 / 10) c1pair.text)
        (cvThreshold (4 / 10) c1pair.link) c1comp) = [] :=
    hfc c1pair.h c1pair.w _ hzero
  have hrest : processComponentRest fc bp c1pair.h c1pair.w c1pair.text
      (cvThreshold (4 / 10) c1pair.text) (cvThreshold (4 / 10) c1pair.link)
      (7 / 10) c1comp = .err := by
    rw [processComponentRest, if_neg hdet, hfc0]
  have hpc : processComponent fc bp c1pair.h c1pair.w c1pair.text
      (cvThreshold (4 / 10) c1pair.text) (cvThreshold (4 / 10) c1pair.link)
      (7 / 10) 10 c1comp = .err := by
    rw [processComponent, if_neg hsize]
    exact hrest
  have hone : extractOne fc bp c1pair (7 / 10) (4 / 10) (4 / 10) 10 = none := by
    rw [extractOne, hcomps]
    exact runComps_cons_err [] hpc
  rw [getBoxes]
  exact mapMaybe_cons_none [] hone

theorem getBoxes_empty_segmap_raises_witness :
    getBoxes fcE bpZ [c1pair] (7 / 10) (4 / 10) (4 / 10) 10 = none :=
  getBoxes_empty_segmap_raises fcE bpZ (fun _ _ _ _ => rfl)

/-! ### Frame lemmas for the store model -/

theorem getD_set_ne {α : Type} (l : List α) (n m : ℕ) (a d : α) (h : n ≠ m) :
    (l.set n a).getD m d = l.getD m d := by
  rw [List.getD_eq_getD_get?, List.getD_eq_getD_get?, List.get?_set_ne a _ h]

theorem compute_input_store_frame (s : List Image3) (r : ℕ) (h : r < s.length) :
    ((compute_input_store s r).1).getD r dImg = s.getD r dImg := by
  rw [compute_input_store]
  dsimp only
  have hne : s.length ≠ r := (Nat.ne_of_lt h).symm
  rw [getD_set_ne _ _ _ _ _ hne, getD_set_ne _ _ _ _ _ hne,
    List.getD_append _ _ _ _ h]

theorem invert_input_store_frame (s : List Image3) (r : ℕ) (h : r < s.length) :
    ((invert_input_store s r).1).getD r dImg = s.getD r dImg := by
  rw [invert_input_store]
  dsimp only
  have hne : s.length ≠ r := (Nat.ne_of_lt h).symm
  have h3 : r < ((((s ++ [s.getD r dImg]).set s.length
      (imgMulVar ((s ++ [s.getD r dImg]).getD s.length dImg))).set s.length
      (imgAddMean (((s ++ [s.getD r dImg]).set s.length
        (imgMulVar ((s ++ [s.getD r dImg]).getD s.length dImg))).getD s.length dImg)))).length := by
    simp only [List.length_set, List.length_append, List.length_cons, List.length_nil]
    omega
  rw [List.getD_append _ _ _ _ h3, getD_set_ne _ _ _ _ _ hne, getD_set_ne _ _ _ _ _ hne,
    List.getD_append _ _ _ _ h]

theorem compStoreStep_frame (ts ls : Grid) (imgH imgW : ℕ) (s : List AVal)
    (comp : Component) :
    s.length ≤ (compStoreStep ts ls imgH imgW s comp).length ∧
    ∀ r, r < s.length →
      (compStoreStep ts ls imgH imgW s comp).getD r dA = s.getD r dA := by
  rw [compStoreStep]
  constructor
  · simp only [List.length_set, List.length_append, List.length_cons, List.length_nil]
    omega
  · intro r hr
    have hne : s.length ≠ r := (Nat.ne_of_lt hr).symm
    have h3 : r < (((s ++ [AVal.a2 fun _ _ => 0]).set s.length
        (AVal.a2 (segmapInit comp))).set s.length
        (AVal.a2 (segmapCarve ts ls (segmapInit comp)))).length := by
      simp only [List.length_set, List.length_append, List.length_cons, List.length_nil]
      omega
    rw [getD_set_ne _ _ _ _ _ hne, List.getD_append _ _ _ _ h3,
      getD_set_ne _ _ _ _ _ hne, getD_set_ne _ _ _ _ _ hne,
      List.getD_append _ _ _ _ hr]

theorem compsStoreLoop_cons_skip (fc : FindContoursFn) (bp : BoxPointsFn)
    (tm ts ls : Grid) (imgH imgW : ℕ) (dt : ℚ) (st : ℕ)
    {c : Component} (s : List AVal) (rest : List Component)
    (h : processComponent fc bp imgH imgW tm ts ls dt st c = .skip) :
    compsStoreLoop fc bp tm ts ls imgH imgW dt st s (c :: rest) =
      compsStoreLoop fc bp tm ts ls imgH imgW dt st s rest := by
  rw [compsStoreLoop, h]

theorem compsStoreLoop_cons_err (fc : FindContoursFn) (bp : BoxPointsFn)
    (tm ts ls : Grid) (imgH imgW : ℕ) (dt : ℚ) (st : ℕ)
    {c : Component} (s : List AVal) (rest : List Component)
    (h : processComponent fc bp imgH imgW tm ts ls dt st c = .err) :
    compsStoreLoop fc bp tm ts ls imgH imgW dt st s (c :: rest) =
      (compStoreStep ts ls imgH imgW s c, none) := by
  rw [compsStoreLoop, h]

theorem compsStoreLoop_cons_box (fc : FindContoursFn) (bp : BoxPointsFn)
    (tm ts ls : Grid) (imgH imgW : ℕ) (dt : ℚ) (st : ℕ)
    {c : Component} {b : PBox} (s : List AVal) (rest : List Component)
    (h : processComponent fc bp imgH imgW tm ts ls dt st c = .box b) :
    compsStoreLoop fc bp tm ts ls imgH imgW dt st s (c :: rest) =
      ((compsStoreLoop fc bp tm ts ls imgH imgW dt st
          (compStoreStep ts ls imgH imgW s c) rest).1,
        (compsStoreLoop fc bp tm ts ls imgH imgW dt st
          (compStoreStep ts ls imgH imgW s c) rest).2.map (b :: ·)) := by
  rw [compsStoreLoop, h]

theorem compsStoreLoop_frame (fc : FindContoursFn) (bp : BoxPointsFn)
    (tm ts ls : Grid) (imgH imgW : ℕ) (dt : ℚ) (st : ℕ) :
    ∀ (comps : List Component) (s : List AVal),
      s.length ≤ (compsStoreLoop fc bp tm ts ls imgH imgW dt st s comps).1.length ∧
      ∀ r, r < s.length →
        ((compsStoreLoop fc bp tm ts ls imgH imgW dt st s comps).1).getD r dA =
          s.getD r dA := by
  intro comps
  induction comps with
  | nil =>
      intro s
      exact ⟨le_rfl, fun r _ => rfl⟩
  | cons c rest ih =>
      intro s
      cases hpc : processComponent fc bp imgH imgW tm ts ls dt st c with
      | skip =>
          rw [compsStoreLoop_cons_skip fc bp tm ts ls imgH imgW dt st s rest hpc]
          exact ih s
      | err =>
          rw [compsStoreLoop_cons_err fc bp tm ts ls imgH imgW dt st s rest hpc]
          exact compStoreStep_frame ts ls imgH imgW s c
      | box b =>
          rw [compsStoreLoop_cons_box fc bp tm ts ls imgH imgW dt st s rest hpc]
          obtain ⟨hl1, hf1⟩ := compStoreStep_frame ts ls imgH imgW s c
          obtain ⟨hl2, hf2⟩ := ih (compStoreStep ts ls imgH imgW s c)
          refine ⟨le_trans hl1 hl2, fun r hr => ?_⟩
          rw [hf2 r (lt_of_lt_of_le hr hl1), hf1 r hr]

theorem extractOneStore_frame (fc : FindContoursFn) (bp : BoxPointsFn)
    (s : List AVal) (r0 imgH imgW : ℕ) (dt tt lt : ℚ) (st : ℕ) :
    s.length ≤ (extractOneStore fc bp s r0 imgH imgW dt tt lt st).1.length ∧
    ∀ r, r < s.length →
      ((extractOneStore fc bp s r0 imgH imgW dt tt lt st).1).getD r dA =
        s.getD r dA := by
  rw [extractOneStore]
  obtain ⟨hl, hf⟩ := compsStoreLoop_frame fc bp
    (fun i j => ((s.getD r0 dA).as3) i j 0)
    (cvThreshold tt fun i j => ((s.getD r0 dA).as3) i j 0)
    (cvThreshold lt fun i j => ((s.getD r0 dA).as3) i j 1)
    imgH imgW dt st
    (componentsOf imgH imgW (labelGrid imgH imgW
      (fgMask (cvThreshold tt fun i j => ((s.getD r0 dA).as3) i j 0)
        (cvThreshold lt fun i j => ((s.getD r0 dA).as3) i j 1))))
    (s ++ [AVal.a2 fun i j => ((s.getD r0 dA).as3) i j 0]
       ++ [AVal.a2 fun i j => ((s.getD r0 dA).as3) i j 1]
       ++ [AVal.a2 (cvThreshold tt fun i j => ((s.getD r0 dA).as3) i j 0)]
       ++ [AVal.a2 (cvThreshold lt fun i j => ((s.getD r0 dA).as3) i j 1)]
       ++ [AVal.ai (labelGrid imgH imgW
            (fgMask (cvThreshold tt fun i j => ((s.getD r0 dA).as3) i j 0)
              (cvThreshold lt fun i j => ((s.getD r0 dA).as3) i j 1)))])
  have hlen : s.length ≤ (s ++ [AVal.a2 fun i j => ((s.getD r0 dA).as3) i j 0]
       ++ [AVal.a2 fun i j => ((s.getD r0 dA).as3) i j 1]
       ++ [AVal.a2 (cvThreshold tt fun i j => ((s.getD r0 dA).as3) i j 0)]
       ++ [AVal.a2 (cvThreshold lt fun i j => ((s.getD r0 dA).as3) i j 1)]
       ++ [AVal.ai (labelGrid imgH imgW
            (fgMask (cvThreshold tt fun i j => ((s.getD r0 dA).as3) i j 0)
              (cvThreshold lt fun i j => ((s.getD r0 dA).as3) i j 1)))]).length := by
    simp only [List.length_append, List.length_cons, List.length_nil]
    omega
  refine ⟨le_trans hlen hl, fun r hr => ?_⟩
  rw [hf r (lt_of_lt_of_le hr hlen)]
  have h1 : r < (s ++ [AVal.a2 fun i j => ((s.getD r0 dA).as3) i j 0]).length := by
    simp only [List.length_append, List.length_cons, List.length_nil]; omega
  have h2 : r < (s ++ [AVal.a2 fun i j => ((s.getD r0 dA).as3) i j 0]
      ++ [AVal.a2 fun i j => ((s.getD r0 dA).as3) i j 1]).length := by
    simp only [List.length_append, List.length_cons, List.length_nil]; omega
  have h3 : r < (s ++ [AVal.a2 fun i j => ((s.getD r0 dA).as3) i j 0]
      ++ [AVal.a2 fun i j => ((s.getD r0 dA).as3) i j 1]
      ++ [AVal.a2 (cvThreshold tt fun i j => ((s.getD r0 dA).as3) i j 0)]).length := by
    simp only [List.length_append, List.length_cons, List.length_nil]; omega
  have h4 : r < (s ++ [AVal.a2 fun i j => ((s.getD r0 dA).as3) i j 0]
      ++ [AVal.a2 fun i j => ((s.getD r0 dA).as3) i j 1]
      ++ [AVal.a2 (cvThreshold tt fun i j => ((s.getD r0 dA).as3) i j 0)]
      ++ [AVal.a2 (cvThreshold lt fun i j => ((s.getD r0 dA).as3) i j 1)]).length := by
    simp only [List.length_append, List.length_cons, List.length_nil]; omega
  rw [List.getD_append _ _ _ _ h4, List.getD_append _ _ _ _ h3,
    List.getD_append _ _ _ _ h2, List.getD_append _ _ _ _ h1,
    List.getD_append _ _ _ _ hr]

theorem getBoxesStore_frame (fc : FindContoursFn) (bp : BoxPointsFn)
    (dt tt lt : ℚ) (st : ℕ) :
    ∀ (refs : List (ℕ × ℕ × ℕ)) (s : List AVal) (r : ℕ), r < s.length →
      ((getBoxesStore fc bp dt tt lt st s refs).1).getD r dA = s.getD r dA := by
  intro refs
  induction refs with
  | nil => intro s r _; rfl
  | cons rr rest ih =>
      intro s r hr
      obtain ⟨r0, imgH, imgW⟩ := rr
      rw [getBoxesStore]
      dsimp only
      obtain ⟨hl1, hf1⟩ := extractOneStore_frame fc bp s r0 imgH imgW dt tt lt st
      cases hres : (extractOneStore fc bp s r0 imgH imgW dt tt lt st).2 with
      | none => dsimp only; rw [hf1 r hr]
      | some g =>
          dsimp only
          rw [ih _ r (lt_of_lt_of_le hr hl1), hf1 r hr]

/-! ### C9: extraction and normalization do not mutate their inputs -/

/-- C9: in the store model of the numpy arrays, `compute_input`,
`invert_input` and `getBoxes` leave every caller-held array unchanged:
the channel copies and the float-conversion copy are fresh allocations
and every in-place write in the bodies hits an array allocated within
the call. -/
theorem arrays_not_mutated :
    (∀ (s : List Image3) (r : ℕ), r < s.length →
      ((compute_input_store s r).1).getD r dImg = s.getD r dImg) ∧
    (∀ (s : List Image3) (r : ℕ), r < s.length →
      ((invert_input_store s r).1).getD r dImg = s.getD r dImg) ∧
    (∀ (fc : FindContoursFn) (bp : BoxPointsFn) (dt tt lt : ℚ) (st : ℕ)
      (s : List AVal) (refs : List (ℕ × ℕ × ℕ)) (r : ℕ), r < s.length →
      ((getBoxesStore fc bp dt tt lt st s refs).1).getD r dA = s.getD r dA) :=
  ⟨compute_input_store_frame, invert_input_store_frame,
    fun fc bp dt tt lt st s refs r hr =>
      getBoxesStore_frame fc bp dt tt lt st refs s r hr⟩

theorem arrays_not_mutated_witness :
    ((compute_input_store sImg 0).1).getD 0 dImg = sImg.getD 0 dImg ∧
    ((invert_input_store sImg 0).1).getD 0 dImg = sImg.getD 0 dImg ∧
    ((getBoxesStore fcE bpZ (7 / 10) (4 / 10) (4 / 10) 10 sA
      [(0, 1, 1)]).1).getD 0 dA = sA.getD 0 dA :=
  ⟨arrays_not_mutated.1 sImg 0 (by simp [sImg]),
   arrays_not_mutated.2.1 sImg 0 (by simp [sImg]),
   arrays_not_mutated.2.2 fcE bpZ (7 / 10) (4 / 10) (4 / 10) 10 sA
     [(0, 1, 1)] 0 (by simp [sA])⟩

/-! ### Faithfulness of the encoded arithmetic

These lemmas connect the decidable rational encodings used inside
`getBoxes` back to the real-number formulas the source computes
(`np.sqrt`, `np.linalg.norm`), and the store-level value operations back
to the pure embedding. -/

theorem store_compute_input_value (img : Image3) :
    imgDivVar (imgSubMean img) = compute_input_image img := rfl

theorem store_invert_input_value (img : Image3) :
    imgClipCast (imgAddMean (imgMulVar img)) =
      fun i j c => ((invert_input c (img i j c) : ℤ) : ℚ) := rfl

theorem niterOf_eq (comp : Component) :
    niterOf comp =
      ⌊2 * Real.sqrt (((comp.area * min comp.width comp.height : ℕ) : ℝ) /
        ((comp.width * comp.height : ℕ) : ℝ))⌋₊ := by
  have hB : 0 < comp.width * comp.height :=
    Nat.mul_pos (Nat.succ_pos _) (Nat.succ_pos _)
  set S : ℕ := comp.area * min comp.width comp.height with hS
  set B : ℕ := comp.width * comp.height with hBdef
  have hBR : (0 : ℝ) < (B : ℝ) := by exact_mod_cast hB
  have hSB : (0 : ℝ) ≤ (S : ℝ) / (B : ℝ) := by positivity
  have hBne : (B : ℝ) ≠ 0 := ne_of_gt hBR
  have key : 2 * Real.sqrt ((S : ℝ) / (B : ℝ)) =
      Real.sqrt ((4 * S * B : ℕ) : ℝ) / (B : ℝ) := by
    have h1 : ((4 * S * B : ℕ) : ℝ) = 4 * (S : ℝ) * (B : ℝ) := by push_cast; ring
    have h2 : 4 * (S : ℝ) * (B : ℝ) = (2 * (B : ℝ)) ^ 2 * ((S : ℝ) / (B : ℝ)) := by
      field_simp
      ring
    rw [h1, h2, Real.sqrt_mul (by positivity) _, Real.sqrt_sq (by positivity)]
    field_simp
    ring
  rw [key, Nat.floor_div_nat, Real.nat_floor_real_sqrt_eq_nat_sqrt, niterOf]

theorem sqrtLePlus_iff (x c d y : ℚ) (hc : 0 ≤ c) (hd : 0 ≤ d) (hy : 0 ≤ y) :
    sqrtLePlus x c d y = true ↔
      Real.sqrt (x : ℝ) ≤ (c : ℝ) + (d : ℝ) * Real.sqrt (y : ℝ) := by
  have hcR : (0 : ℝ) ≤ (c : ℝ) := by exact_mod_cast hc
  have hdR : (0 : ℝ) ≤ (d : ℝ) := by exact_mod_cast hd
  have hyR : (0 : ℝ) ≤ (y : ℝ) := by exact_mod_cast hy
  have hsy : Real.sqrt (y : ℝ) ^ 2 = (y : ℝ) := Real.sq_sqrt hyR
  have hrhs : (0 : ℝ) ≤ (c : ℝ) + (d : ℝ) * Real.sqrt (y : ℝ) := by positivity
  rw [Real.sqrt_le_left hrhs]
  have hexp : ((c : ℝ) + (d : ℝ) * Real.sqrt (y : ℝ)) ^ 2 =
      (c : ℝ) ^ 2 + (d : ℝ) ^ 2 * (y : ℝ) +
        2 * (c : ℝ) * (d : ℝ) * Real.sqrt (y : ℝ) := by
    have : ((c : ℝ) + (d : ℝ) * Real.sqrt (y : ℝ)) ^ 2 =
        (c : ℝ) ^ 2 + (d : ℝ) ^ 2 * Real.sqrt (y : ℝ) ^ 2 +
          2 * (c : ℝ) * (d : ℝ) * Real.sqrt (y : ℝ) := by ring
    rw [this, hsy]
  rw [hexp]
  simp only [sqrtLePlus, decide_eq_true_eq]
  constructor
  · rintro (h0 | hsq)
    · have h0R : ((x - c ^ 2 - d ^ 2 * y : ℚ) : ℝ) ≤ 0 := by exact_mod_cast h0
      push_cast at h0R
      have hterm : (0 : ℝ) ≤ 2 * (c : ℝ) * (d : ℝ) * Real.sqrt (y : ℝ) := by positivity
      linarith
    · rcases le_or_lt (x - c ^ 2 - d ^ 2 * y) 0 with h0 | hpos
      · have h0R : ((x - c ^ 2 - d ^ 2 * y : ℚ) : ℝ) ≤ 0 := by exact_mod_cast h0
        push_cast at h0R
        have hterm : (0 : ℝ) ≤ 2 * (c : ℝ) * (d : ℝ) * Real.sqrt (y : ℝ) := by positivity
        linarith
      · have hposR : (0 : ℝ) < ((x - c ^ 2 - d ^ 2 * y : ℚ) : ℝ) := by exact_mod_cast hpos
        have hsqR : (((x - c ^ 2 - d ^ 2 * y) ^ 2 : ℚ) : ℝ) ≤
            ((4 * c ^ 2 * d ^ 2 * y : ℚ) : ℝ) := by exact_mod_cast hsq
        push_cast at hposR hsqR
        have hmain : ((x : ℝ) - (c : ℝ) ^ 2 - (d : ℝ) ^ 2 * (y : ℝ)) ≤
            2 * (c : ℝ) * (d : ℝ) * Real.sqrt (y : ℝ) := by
          have hu : (0 : ℝ) ≤ 2 * (c : ℝ) * (d : ℝ) * Real.sqrt (y : ℝ) := by positivity
          have husq : (2 * (c : ℝ) * (d : ℝ) * Real.sqrt (y : ℝ)) ^ 2 =
              4 * (c : ℝ) ^ 2 * (d : ℝ) ^ 2 * (y : ℝ) := by
            have : (2 * (c : ℝ) * (d : ℝ) * Real.sqrt (y : ℝ)) ^ 2 =
                4 * (c : ℝ) ^ 2 * (d : ℝ) ^ 2 * Real.sqrt (y : ℝ) ^ 2 := by ring
            rw [this, hsy]
          have := (pow_le_pow_iff_left₀ (le_of_lt hposR) hu
            (two_ne_zero)).1 (by rw [husq]; exact hsqR)
          exact this
        linarith
  · intro h
    rcases le_or_lt (x - c ^ 2 - d ^ 2 * y) 0 with h0 | hpos
    · exact Or.inl h0
    · right
      have hposR : (0 : ℝ) < ((x - c ^ 2 - d ^ 2 * y : ℚ) : ℝ) := by exact_mod_cast hpos
      have hu : (0 : ℝ) ≤ 2 * (c : ℝ) * (d : ℝ) * Real.sqrt (y : ℝ) := by positivity
      have hmain : ((x - c ^ 2 - d ^ 2 * y : ℚ) : ℝ) ≤
          2 * (c : ℝ) * (d : ℝ) * Real.sqrt (y : ℝ) := by
        push_cast
        linarith
      have hsqR : (((x - c ^ 2 - d ^ 2 * y : ℚ)) ^ 2 : ℝ) ≤
          (2 * (c : ℝ) * (d : ℝ) * Real.sqrt (y : ℝ)) ^ 2 :=
        pow_le_pow_left₀ (le_of_lt hposR) hmain 2
      have husq : (2 * (c : ℝ) * (d : ℝ) * Real.sqrt (y : ℝ)) ^ 2 =
          4 * (c : ℝ) ^ 2 * (d : ℝ) ^ 2 * (y : ℝ) := by
        have : (2 * (c : ℝ) * (d : ℝ) * Real.sqrt (y : ℝ)) ^ 2 =
            4 * (c : ℝ) ^ 2 * (d : ℝ) ^ 2 * Real.sqrt (y : ℝ) ^ 2 := by ring
        rw [this, hsy]
      rw [husq] at hsqR
      exact_mod_cast hsqR

theorem sqrtLtPlus_iff (x c d y : ℚ) (hc : 0 < c) (hd : 0 ≤ d) (hy : 0 ≤ y) :
    sqrtLtPlus x c d y = true ↔
      Real.sqrt (x : ℝ) < (c : ℝ) + (d : ℝ) * Real.sqrt (y : ℝ) := by
  have hcR : (0 : ℝ) < (c : ℝ) := by exact_mod_cast hc
  have hdR : (0 : ℝ) ≤ (d : ℝ) := by exact_mod_cast hd
  have hyR : (0 : ℝ) ≤ (y : ℝ) := by exact_mod_cast hy
  have hsy : Real.sqrt (y : ℝ) ^ 2 = (y : ℝ) := Real.sq_sqrt hyR
  have hrhs : (0 : ℝ) < (c : ℝ) + (d : ℝ) * Real.sqrt (y : ℝ) := by positivity
  rw [Real.sqrt_lt' hrhs]
  have hexp : ((c : ℝ) + (d : ℝ) * Real.sqrt (y : ℝ)) ^ 2 =
      (c : ℝ) ^ 2 + (d : ℝ) ^ 2 * (y : ℝ) +
        2 * (c : ℝ) * (d : ℝ) * Real.sqrt (y : ℝ) := by
    have : ((c : ℝ) + (d : ℝ) * Real.sqrt (y : ℝ)) ^ 2 =
        (c : ℝ) ^ 2 + (d : ℝ) ^ 2 * Real.sqrt (y : ℝ) ^ 2 +
          2 * (c : ℝ) * (d : ℝ) * Real.sqrt (y : ℝ) := by ring
    rw [this, hsy]
  rw [hexp]
  have husq : (2 * (c : ℝ) * (d : ℝ) * Real.sqrt (y : ℝ)) ^ 2 =
      4 * (c : ℝ) ^ 2 * (d : ℝ) ^ 2 * (y : ℝ) := by
    have : (2 * (c : ℝ) * (d : ℝ) * Real.sqrt (y : ℝ)) ^ 2 =
        4 * (c : ℝ) ^ 2 * (d : ℝ) ^ 2 * Real.sqrt (y : ℝ) ^ 2 := by ring
    rw [this, hsy]
  have hu : (0 : ℝ) ≤ 2 * (c : ℝ) * (d : ℝ) * Real.sqrt (y : ℝ) := by positivity
  simp only [sqrtLtPlus, decide_eq_true_eq]
  constructor
  · rintro (h0 | hsq)
    · have h0R : ((x - c ^ 2 - d ^ 2 * y : ℚ) : ℝ) < 0 := by exact_mod_cast h0
      push_cast at h0R
      linarith
    · rcases lt_or_le (x - c ^ 2 - d ^ 2 * y) 0 with h0 | hge
      · have h0R : ((x - c ^ 2 - d ^ 2 * y : ℚ) : ℝ) < 0 := by exact_mod_cast h0
        push_cast at h0R
        linarith
      · have hgeR : (0 : ℝ) ≤ ((x - c ^ 2 - d ^ 2 * y : ℚ) : ℝ) := by exact_mod_cast hge
        have hsqR : (((x - c ^ 2 - d ^ 2 * y) ^ 2 : ℚ) : ℝ) <
            ((4 * c ^ 2 * d ^ 2 * y : ℚ) : ℝ) := by exact_mod_cast hsq
        push_cast at hgeR hsqR
        have := (pow_lt_pow_iff_left₀ hgeR hu (two_ne_zero)).1
          (by rw [husq]; exact hsqR)
        linarith
  · intro h
    rcases lt_or_le (x - c ^ 2 - d ^ 2 * y) 0 with h0 | hge
    · exact Or.inl h0
    · right
      have hgeR : (0 : ℝ) ≤ ((x - c ^ 2 - d ^ 2 * y : ℚ) : ℝ) := by exact_mod_cast hge
      have hmain : ((x - c ^ 2 - d ^ 2 * y : ℚ) : ℝ) <
          2 * (c : ℝ) * (d : ℝ) * Real.sqrt (y : ℝ) := by
        push_cast
        linarith
      have hsqR : (((x - c ^ 2 - d ^ 2 * y : ℚ)) ^ 2 : ℝ) <
          (2 * (c : ℝ) * (d : ℝ) * Real.sqrt (y : ℝ)) ^ 2 := by
        exact pow_lt_pow_left₀ hmain hgeR two_ne_zero
      rw [husq] at hsqR
      exact_mod_cast hsqR

/-- The near-square test decides exactly the source condition
`abs(1 - max(w, h) / (min(w, h) + 1e-5)) <= 0.1` on the real side
lengths `w = √a`, `h = √b` of the fitted box. -/
theorem diamondTest_iff (a b : ℚ) (ha : 0 ≤ a) (hb : 0 ≤ b) :
    diamondTest a b = true ↔
      |1 - max (Real.sqrt (a : ℝ)) (Real.sqrt (b : ℝ)) /
        (min (Real.sqrt (a : ℝ)) (Real.sqrt (b : ℝ)) + 1 / 100000)| ≤ 1 / 10 := by
  have hmono : Monotone Real.sqrt := fun u v h => Real.sqrt_le_sqrt h
  have hcastmax : ((max a b : ℚ) : ℝ) = max (a : ℝ) (b : ℝ) := Rat.cast_max a b
  have hcastmin : ((min a b : ℚ) : ℝ) = min (a : ℝ) (b : ℝ) := Rat.cast_min a b
  have hM : Real.sqrt ((max a b : ℚ) : ℝ) =
      max (Real.sqrt (a : ℝ)) (Real.sqrt (b : ℝ)) := by
    rw [hcastmax, hmono.map_max]
  have hm : Real.sqrt ((min a b : ℚ) : ℝ) =
      min (Real.sqrt (a : ℝ)) (Real.sqrt (b : ℝ)) := by
    rw [hcastmin, hmono.map_min]
  set M := max (Real.sqrt (a : ℝ)) (Real.sqrt (b : ℝ)) with hMdef
  set m := min (Real.sqrt (a : ℝ)) (Real.sqrt (b : ℝ)) with hmdef
  have hm0 : 0 ≤ m := le_min (Real.sqrt_nonneg _) (Real.sqrt_nonneg _)
  have hden : (0 : ℝ) < m + 1 / 100000 := by positivity
  have hrw1 : (11 / 10 * (1 / 100000) : ℚ) > 0 := by norm_num
  have hrw2 : (9 / 10 * (1 / 100000) : ℚ) > 0 := by norm_num
  have h1 := sqrtLePlus_iff (max a b) (11 / 10 * (1 / 100000)) (11 / 10) (min a b)
    (le_of_lt hrw1) (by norm_num) (le_min ha hb)
  have h2 := sqrtLtPlus_iff (max a b) (9 / 10 * (1 / 100000)) (9 / 10) (min a b)
    hrw2 (by norm_num) (le_min ha hb)
  rw [hM, hm] at h1 h2
  push_cast at h1 h2
  simp only [diamondTest, Bool.and_eq_true, decide_eq_true_eq]
  rw [abs_le]
  constructor
  · rintro ⟨hle, hlt⟩
    have hle' := h1.1 hle
    have hge' : (9 / 10 : ℝ) * (1 / 100000) + 9 / 10 * m ≤ M := by
      have hnot : ¬ (M < 9 / 10 * (1 / 100000) + 9 / 10 * m) :=
        fun hcon => hlt (h2.2 hcon)
      linarith [not_lt.1 hnot]
    have hq1 : M / (m + 1 / 100000) ≤ 11 / 10 := by
      rw [div_le_iff₀ hden]
      linarith
    have hq2 : (9 / 10 : ℝ) ≤ M / (m + 1 / 100000) := by
      rw [le_div_iff₀ hden]
      linarith
    constructor
    · linarith
    · linarith
  · rintro ⟨hlo, hhi⟩
    have hq1 : M / (m + 1 / 100000) ≤ 11 / 10 := by linarith
    have hq2 : (9 / 10 : ℝ) ≤ M / (m + 1 / 100000) := by linarith
    have hle2 : M ≤ 11 / 10 * (m + 1 / 100000) := by
      rw [div_le_iff₀ hden] at hq1
      linarith
    have hge2 : 9 / 10 * (m + 1 / 100000) ≤ M := by
      rw [le_div_iff₀ hden] at hq2
      linarith
    refine ⟨h1.2 (by linarith), fun hcon => by linarith [h2.1 hcon]⟩
